import Mathlib

/-!
# nuzzle: a 4x4 sliding picture puzzle (`src/main.c`)

Shallow embedding of the board model, the geometry helpers, the per-frame
input translator and the tile renderer of `main.c`, followed by the theorems
that settle the claims of the specification.

Conventions of the embedding

* `size_t` values are `Nat`, `int` values are `Int`; the conversions between
  them are written out (`size_t_to_int`, `to_int`).
* `Board` is the object `Point cells[CELLS_DIM][CELLS_DIM]`: sixteen `Point`s
  in row-major order.  The C expression `board->cells[j][i]` designates the
  element at offset `j * CELLS_DIM + i` from the start of the object.  An
  offset inside the object is read or written there (so `cells[0][4]` is the
  storage of `cells[1][0]`); an offset outside the object has no defined
  behaviour and is the result `none`.
* Every use of `board->cells[..][..]` is recorded, in program order, in the
  `log` of the `Access` monad, also when the access itself fails.
* `float` arithmetic is taken as exact arithmetic over `ℚ`; the conversions of a
  `float` to `int` and to `size_t` are partial: a value outside the range of the
  target type has no defined result and is `none`.
-/

namespace Nuzzle

/-! ## Data model -/

/-- `#define CELLS_DIM 4` -/
abbrev CELLS_DIM : Nat := 4

/-- `typedef enum { DIR_UP, DIR_DOWN, DIR_LEFT, DIR_RIGHT } Direction;` -/
inductive Direction
  | DIR_UP
  | DIR_DOWN
  | DIR_LEFT
  | DIR_RIGHT
  deriving DecidableEq, Repr

open Direction

/-- `typedef struct { size_t x; size_t y; } Point;` -/
structure Point where
  x : Nat
  y : Nat
  deriving DecidableEq, Repr

/-- The value of `(size_t) -1` on a 64-bit target. -/
abbrev SIZE_MAX : Nat := 18446744073709551615

/-- `#define POINT_EMPTY ((Point) { -1, -1 })` -/
def POINT_EMPTY : Point := ⟨SIZE_MAX, SIZE_MAX⟩

/-- `bool point_eq(Point p1, Point p2)` -/
def point_eq (p1 p2 : Point) : Bool :=
  p1.x == p2.x && p1.y == p2.y

/-- `typedef struct { Point cells[CELLS_DIM][CELLS_DIM]; } Board;`
in row-major order. -/
structure Board where
  cells : List Point
  size_eq : cells.length = CELLS_DIM * CELLS_DIM
  deriving DecidableEq

/-! ## Memory accesses -/

/-- A computation that uses `board->cells`: the index pairs `(j, i)` of the
accesses `cells[j][i]` it made, in order, and its result (`none` when an access
fell outside the `Board` object). -/
structure Access (α : Type) where
  log : List (Int × Int)
  val : Option α

/-- Sequencing: the second computation runs only when the first one returned. -/
def Access.bind {α β : Type} (m : Access α) (f : α → Access β) : Access β :=
  match m.val with
  | none => ⟨m.log, none⟩
  | some a => ⟨m.log ++ (f a).log, (f a).val⟩

instance : Monad Access where
  pure a := ⟨[], some a⟩
  bind := Access.bind

/-- The offset of `cells[j][i]` in the `Board` object, when it lies inside. -/
def cells_index (j i : Int) : Option Nat :=
  let off := j * CELLS_DIM + i
  if 0 ≤ off ∧ off < CELLS_DIM * CELLS_DIM then some off.toNat else none

/-- The value of `board->cells[j][i]`. -/
def cells_get (board : Board) (j i : Int) : Option Point :=
  (cells_index j i).bind (fun k => board.cells[k]?)

/-- The board after `board->cells[j][i] = p`. -/
def cells_set (board : Board) (j i : Int) (p : Point) : Option Board :=
  (cells_index j i).map
    (fun k => ⟨board.cells.set k p, by rw [List.length_set]; exact board.size_eq⟩)

/-- A read of `board->cells[j][i]`. -/
def rd (board : Board) (j i : Int) : Access Point :=
  ⟨[(j, i)], cells_get board j i⟩

/-- The write `board->cells[j][i] = p`. -/
def wr (board : Board) (j i : Int) (p : Point) : Access Board :=
  ⟨[(j, i)], cells_set board j i p⟩

/-! ## Loops -/

/-- `for (size_t v = start; v > 0; --v) body` -/
def for_down {σ : Type} (body : Nat → σ → Access σ) : Nat → σ → Access σ
  | 0, s => pure s
  | v + 1, s => body (v + 1) s >>= for_down body v

/-- `for (size_t v = start; v < start + count; ++v) body` -/
def for_up {σ : Type} (body : Nat → σ → Access σ) : Nat → Nat → σ → Access σ
  | _, 0, s => pure s
  | v, c + 1, s => body v s >>= for_up body (v + 1) c

/-- The exchange `Point temp = c[y][x]; c[y][x] = c[j][i]; c[j][i] = temp;`
(lines 78-80 and lines 108-110). -/
def swap_cells (board : Board) (y x j i : Int) : Access Board := do
  let temp ← rd board y x
  let v ← rd board j i
  let b1 ← wr board y x v
  wr b1 j i temp

/-! ## `board_randomize` -/

/-- Lines 67-71: `board->cells[y][x] = (Point) { x, y };` for every cell. -/
def board_fill (board : Board) : Access Board :=
  for_up (fun y b => for_up (fun x b => wr b y x ⟨x, y⟩) 0 CELLS_DIM b) 0 CELLS_DIM board

/-- Lines 75-80, the body of the shuffle loops.  The state is the board and
the number of `rand()` calls made so far; `draws k` is the result of call `k`. -/
def shuffle_body (draws : Nat → Nat) (y x : Nat) (st : Board × Nat) : Access (Board × Nat) := do
  let i := draws st.2 % (x + 1)
  let j := draws (st.2 + 1) % (y + 1)
  let b2 ← swap_cells st.1 y x j i
  pure (b2, st.2 + 2)

/-- Lines 73-82: the two nested down-counting shuffle loops. -/
def board_shuffle (draws : Nat → Nat) (st : Board × Nat) : Access (Board × Nat) :=
  for_down (fun y s => for_down (fun x s => shuffle_body draws y x s) (CELLS_DIM - 1) s)
    (CELLS_DIM - 1) st

/-- `void board_randomize(Board *board)`; `draws k` is the result of the
`k`-th call of `rand()` after `srand`. -/
def board_randomize_trace (draws : Nat → Nat) (board : Board) : Access Board := do
  let b1 ← board_fill board
  let st ← board_shuffle draws (b1, 0)
  let x := draws st.2 % CELLS_DIM
  let y := draws (st.2 + 1) % CELLS_DIM
  wr st.1 x y POINT_EMPTY

/-- The board left by `board_randomize`. -/
def board_randomize (draws : Nat → Nat) (board : Board) : Option Board :=
  (board_randomize_trace draws board).val

/-! ## `board_slide_piece` -/

/-- The conversion `int i = x;` of a `size_t` to a 32-bit `int`. -/
def size_t_to_int (x : Nat) : Int :=
  let r := (x : Int) % 4294967296
  if r < 2147483648 then r else r - 4294967296

/-- `void board_slide_piece(Board *board, size_t x, size_t y, Direction dir)`
with the accesses it makes to `board->cells`. -/
def board_slide_piece_trace (board : Board) (x y : Nat) (dir : Direction) : Access Board :=
  let i0 := size_t_to_int x
  let j0 := size_t_to_int y
  let i : Int := match dir with
    | DIR_RIGHT => i0 + 1
    | DIR_LEFT => i0 - 1
    | _ => i0
  let j : Int := match dir with
    | DIR_UP => j0 - 1
    | DIR_DOWN => j0 + 1
    | _ => j0
  if i < 0 ∨ i > CELLS_DIM ∨ j < 0 ∨ j > CELLS_DIM then
    pure board
  else do
    let n ← rd board j i
    if !point_eq n POINT_EMPTY then
      pure board
    else
      swap_cells board y x j i

/-- The board left by `board_slide_piece`. -/
def board_slide_piece (board : Board) (x y : Nat) (dir : Direction) : Option Board :=
  (board_slide_piece_trace board x y dir).val

/-! ## Boards used in the examples -/

/-- The board in which cell `(x, y)` holds `Point{x, y}`. -/
def solved_full : Board :=
  ⟨[⟨0, 0⟩, ⟨1, 0⟩, ⟨2, 0⟩, ⟨3, 0⟩,
    ⟨0, 1⟩, ⟨1, 1⟩, ⟨2, 1⟩, ⟨3, 1⟩,
    ⟨0, 2⟩, ⟨1, 2⟩, ⟨2, 2⟩, ⟨3, 2⟩,
    ⟨0, 3⟩, ⟨1, 3⟩, ⟨2, 3⟩, ⟨3, 3⟩], rfl⟩

/-- The solved board with the sentinel at `(0, 0)`. -/
def solved_board : Board :=
  ⟨[POINT_EMPTY, ⟨1, 0⟩, ⟨2, 0⟩, ⟨3, 0⟩,
    ⟨0, 1⟩, ⟨1, 1⟩, ⟨2, 1⟩, ⟨3, 1⟩,
    ⟨0, 2⟩, ⟨1, 2⟩, ⟨2, 2⟩, ⟨3, 2⟩,
    ⟨0, 3⟩, ⟨1, 3⟩, ⟨2, 3⟩, ⟨3, 3⟩], rfl⟩

/-- `Board board = { 0 };` of `main`. -/
def zero_board : Board := ⟨List.replicate 16 ⟨0, 0⟩, rfl⟩

/-- The number of cells that `point_eq` finds equal to `POINT_EMPTY`. -/
def empty_count (board : Board) : Nat :=
  board.cells.countP (fun c => point_eq c POINT_EMPTY)

/-- A coordinate of the `CELLS_DIM` x `CELLS_DIM` space. -/
def Point.in_grid (p : Point) : Prop := p.x < CELLS_DIM ∧ p.y < CELLS_DIM

instance (p : Point) : Decidable p.in_grid := by
  unfold Point.in_grid; infer_instance

/-- The cell of the grid in column `x` and row `y`, i.e. `cells[y][x]` with
both indices inside `[0, CELLS_DIM)`. -/
def Board.cell (board : Board) (x y : Nat) : Option Point :=
  if x < CELLS_DIM ∧ y < CELLS_DIM then board.cells[y * CELLS_DIM + x]? else none

/-- The grid position adjacent to `(x, y)` in direction `dir`, when both of its
indices lie in `[0, CELLS_DIM)`: right and left change the column, up and down
the row. -/
def neighbour (x y : Nat) (dir : Direction) : Option (Nat × Nat) :=
  match dir with
  | DIR_RIGHT => if x + 1 < CELLS_DIM then some (x + 1, y) else none
  | DIR_LEFT => if 0 < x then some (x - 1, y) else none
  | DIR_UP => if 0 < y then some (x, y - 1) else none
  | DIR_DOWN => if y + 1 < CELLS_DIM then some (x, y + 1) else none

/-- The solved board with the sentinel in column 0 of row 1. -/
def wrap_board : Board :=
  ⟨[⟨0, 0⟩, ⟨1, 0⟩, ⟨2, 0⟩, ⟨3, 0⟩,
    POINT_EMPTY, ⟨1, 1⟩, ⟨2, 1⟩, ⟨3, 1⟩,
    ⟨0, 2⟩, ⟨1, 2⟩, ⟨2, 2⟩, ⟨3, 2⟩,
    ⟨0, 3⟩, ⟨1, 3⟩, ⟨2, 3⟩, ⟨3, 3⟩], rfl⟩

/-- The board `wrap_board` with the last cell of row 0 and the first cell of
row 1 exchanged. -/
def wrap_board_after : Board :=
  ⟨[⟨0, 0⟩, ⟨1, 0⟩, ⟨2, 0⟩, POINT_EMPTY,
    ⟨3, 0⟩, ⟨1, 1⟩, ⟨2, 1⟩, ⟨3, 1⟩,
    ⟨0, 2⟩, ⟨1, 2⟩, ⟨2, 2⟩, ⟨3, 2⟩,
    ⟨0, 3⟩, ⟨1, 3⟩, ⟨2, 3⟩, ⟨3, 3⟩], rfl⟩

/-- The solved board after the tile `Point{1, 0}` has moved into `(0, 0)`. -/
def solved_board_after : Board :=
  ⟨[⟨1, 0⟩, POINT_EMPTY, ⟨2, 0⟩, ⟨3, 0⟩,
    ⟨0, 1⟩, ⟨1, 1⟩, ⟨2, 1⟩, ⟨3, 1⟩,
    ⟨0, 2⟩, ⟨1, 2⟩, ⟨2, 2⟩, ⟨3, 2⟩,
    ⟨0, 3⟩, ⟨1, 3⟩, ⟨2, 3⟩, ⟨3, 3⟩], rfl⟩

/-! ## Geometry -/

/-- `typedef struct { float x; float y; } Vec2;` with exact components. -/
structure Vec2 where
  x : ℚ
  y : ℚ
  deriving DecidableEq

/-- The value of `int len = sqrt(q);` in exact arithmetic: the square root of
`q` truncated to an integer, when the truncated value is an `int` (at most
`INT_MAX = 2147483647`); the conversion of a larger value has no defined
result, which is `none`. -/
def sqrt_to_int (q : ℚ) : Option Int :=
  if Nat.sqrt ⌊q⌋.toNat < 2147483648 then some (Nat.sqrt ⌊q⌋.toNat : Nat) else none

/-- The quotient `a / len` of a `float` by an `int`; `none` records a division
by zero. -/
def div_by_int (a : ℚ) (len : Int) : Option ℚ :=
  if len = 0 then none else some (a / (len : ℚ))

/-- `Direction dir_from_vec2(Vec2 v1, Vec2 v2)` -/
def dir_from_vec2 (v1 v2 : Vec2) : Option Direction := do
  let dir : Vec2 := ⟨v2.x - v1.x, v2.y - v1.y⟩
  let len ← sqrt_to_int (dir.x * dir.x + dir.y * dir.y)
  let dir ← if len ≠ 0 then do
      let x ← div_by_int dir.x len
      let y ← div_by_int dir.y len
      pure (⟨x, y⟩ : Vec2)
    else pure dir
  if |dir.x| ≥ |dir.y| then
    pure (if dir.x > 0 then DIR_RIGHT else DIR_LEFT)
  else
    pure (if dir.y > 0 then DIR_DOWN else DIR_UP)

/-- The classification of a raw displacement `(dx, dy)` in the words of the
specification: horizontal when `|dx| >= |dy|`, else vertical, and the sign of
the dominant component selects the direction. -/
def dir_reference (dx dy : ℚ) : Direction :=
  if |dx| ≥ |dy| then
    if dx > 0 then DIR_RIGHT else DIR_LEFT
  else
    if dy > 0 then DIR_DOWN else DIR_UP

/-- The square of `vec2_distance(v1, v2)`, i.e. the argument of its `sqrt`. -/
def vec2_distance_sq (v1 v2 : Vec2) : ℚ :=
  (v2.x - v1.x) * (v2.x - v1.x) + (v2.y - v1.y) * (v2.y - v1.y)

/-- The test `vec2_distance(v1, v2) > t` for a threshold `t >= 0`, decided on
the squares. -/
def vec2_distance_gt (v1 v2 : Vec2) (t : ℚ) : Bool :=
  decide (vec2_distance_sq v1 v2 > t * t)

/-! ## Input translator (lines 187-207 of `main`) -/

/-- `SDL_BUTTON_LEFT` as SDL2 defines it. -/
abbrev SDL_BUTTON_LEFT : Nat := 1

/-- The truth value of `state & SDL_BUTTON_LEFT` for a button mask. -/
def button_down (state : Nat) : Bool :=
  state &&& SDL_BUTTON_LEFT != 0

/-- The variables that the frame loop carries from one frame to the next:
`mouse_last_state`, `mouse_click_pos` (the anchor) and `allow_slide`. -/
structure InputState where
  mouse_last_state : Nat
  mouse_click_pos : Vec2
  allow_slide : Bool
  deriving DecidableEq

/-- What `SDL_GetMouseState(&mouse_x, &mouse_y)` reports in one frame. -/
structure MouseSample where
  mouse_state : Nat
  mouse_x : Int
  mouse_y : Int
  deriving DecidableEq

/-- Lines 188-189: `mouse_pos.x = (float) mouse_x; mouse_pos.y = (float) mouse_y;` -/
def MouseSample.mouse_pos (m : MouseSample) : Vec2 :=
  ⟨(m.mouse_x : ℚ), (m.mouse_y : ℚ)⟩

/-- The arguments `x, y, dir` of the call `board_slide_piece(&board, x, y, dir)`. -/
structure SlideCall where
  x : Nat
  y : Nat
  dir : Direction
  deriving DecidableEq

/-- The conversion of a `float` to `size_t`: the value truncated towards zero,
defined when the truncated value is a `size_t`. -/
def float_to_size_t (q : ℚ) : Option Nat :=
  if -1 < q ∧ q < 18446744073709551616 then some ⌊q⌋.toNat else none

/-- Lines 198-200: the direction of the drag and the grid cell of the anchor,
`x = mouse_click_pos.x / field_width`, `y = mouse_click_pos.y / field_height`. -/
def slide_call (field_width field_height : Int) (mouse_click_pos mouse_pos : Vec2) :
    Option SlideCall := do
  let dir ← dir_from_vec2 mouse_click_pos mouse_pos
  let x ← (div_by_int mouse_click_pos.x field_width).bind float_to_size_t
  let y ← (div_by_int mouse_click_pos.y field_height).bind float_to_size_t
  pure ⟨x, y, dir⟩

/-- What a frame does about the board: nothing, or the call of
`board_slide_piece` on line 202 (with its arguments when lines 198-200 give
them a defined value). -/
inductive FrameAction
  | no_slide
  | slide (call : Option SlideCall)
  deriving DecidableEq

/-- Whether `board_slide_piece` is invoked. -/
def FrameAction.invoked : FrameAction → Bool
  | no_slide => false
  | slide _ => true

/-- Lines 187-207: one frame of the input translator. -/
def input_step (field_width field_height : Int) (s : InputState) (m : MouseSample) :
    InputState × FrameAction :=
  let mouse_pos := m.mouse_pos
  if button_down m.mouse_state then
    let s1 : InputState :=
      if !button_down s.mouse_last_state then
        { s with allow_slide := true, mouse_click_pos := mouse_pos }
      else s
    if s1.allow_slide && vec2_distance_gt s1.mouse_click_pos mouse_pos 60 then
      ({ mouse_last_state := m.mouse_state, mouse_click_pos := s1.mouse_click_pos,
         allow_slide := false },
       FrameAction.slide (slide_call field_width field_height s1.mouse_click_pos mouse_pos))
    else
      ({ s1 with mouse_last_state := m.mouse_state }, FrameAction.no_slide)
  else
    ({ s with mouse_last_state := m.mouse_state }, FrameAction.no_slide)

/-- The actions of consecutive frames. -/
def input_run (field_width field_height : Int) : InputState → List MouseSample → List FrameAction
  | _, [] => []
  | s, m :: ms =>
    (input_step field_width field_height s m).2 ::
      input_run field_width field_height (input_step field_width field_height s m).1 ms

/-- The distance from `anchor` to `pos` is strictly greater than 60. -/
def beyond_threshold (anchor pos : Vec2) : Prop :=
  Real.sqrt ((vec2_distance_sq anchor pos : ℚ) : ℝ) > 60

/-- The state in which `main` enters the frame loop, with no button held. -/
def initial_input : InputState := ⟨0, ⟨0, 0⟩, true⟩

/-- A drag that starts at `(100, 100)`, reaches a distance of exactly 60, then
61, comes back and goes out again, the button held throughout. -/
def drag_frames : List MouseSample :=
  [⟨1, 100, 100⟩, ⟨1, 160, 100⟩, ⟨1, 161, 100⟩, ⟨1, 100, 100⟩, ⟨1, 200, 100⟩]

/-! ## Renderer (lines 132-141 and 211-224 of `main`) -/

/-- `SDL_Rect`, four `int` fields. -/
structure SDL_Rect where
  x : Int
  y : Int
  w : Int
  h : Int
  deriving DecidableEq

/-- The conversion of an integer value to a 32-bit `int`. -/
def to_int (v : Int) : Int :=
  let r := v % 4294967296
  if r < 2147483648 then r else r - 4294967296

/-- The value stored by `.x = a * w` for a `size_t a` and an `int w`: `w` is
converted to `size_t`, the product is taken modulo `2^64`, and the result is
converted to `int`. -/
def size_t_mul_int (a : Nat) (w : Int) : Int :=
  to_int (((a : Int) * (w % 18446744073709551616)) % 18446744073709551616)

/-- Lines 140-141: `window_width / CELLS_DIM`, the division of `int`s. -/
def field_size (window_dim : Int) : Int :=
  Int.tdiv window_dim CELLS_DIM

/-- Lines 213-222, the body of the tile loops: the blits issued so far are
`out`; a sentinel cell is skipped, any other cell issues one
`SDL_RenderCopy(renderer, puzzle_texture, &src, &dst)`. -/
def render_cell (board : Board) (field_width field_height : Int) (y x : Nat)
    (out : List (SDL_Rect × SDL_Rect)) : Access (List (SDL_Rect × SDL_Rect)) := do
  let p ← rd board y x
  if point_eq p POINT_EMPTY then
    pure out
  else
    let src : SDL_Rect :=
      ⟨size_t_mul_int p.x field_width, size_t_mul_int p.y field_height, field_width, field_height⟩
    let dst : SDL_Rect :=
      ⟨size_t_mul_int x field_width, size_t_mul_int y field_height, field_width, field_height⟩
    pure (out ++ [(src, dst)])

/-- Lines 211-224: the pairs `(src, dst)` of the blits of one frame, in order. -/
def render_tiles (board : Board) (field_width field_height : Int) :
    Access (List (SDL_Rect × SDL_Rect)) :=
  for_up (fun y out =>
    for_up (fun x out => render_cell board field_width field_height y x out) 0 CELLS_DIM out)
    0 CELLS_DIM []

/-- The blits that the specification gives for the grid cell `(x, y)`: none if
the cell holds the sentinel, else one, from the rectangle of the tile's own
coordinate to the rectangle of the grid position. -/
def expected_tile (board : Board) (field_width field_height : Int) (x y : Nat) :
    List (SDL_Rect × SDL_Rect) :=
  match board.cell x y with
  | some p =>
    if p = POINT_EMPTY then []
    else [(⟨p.x * field_width, p.y * field_height, field_width, field_height⟩,
           ⟨x * field_width, y * field_height, field_width, field_height⟩)]
  | none => []

/-- The blits of all grid cells, row by row. -/
def expected_blits (board : Board) (field_width field_height : Int) :
    List (SDL_Rect × SDL_Rect) :=
  (List.range CELLS_DIM).flatMap (fun y =>
    (List.range CELLS_DIM).flatMap (fun x => expected_tile board field_width field_height x y))

/-- Every cell holds the sentinel or a coordinate of the grid. -/
def Board.well_formed (board : Board) : Prop :=
  ∀ c ∈ board.cells, c = POINT_EMPTY ∨ c.in_grid

instance (board : Board) : Decidable board.well_formed := by
  unfold Board.well_formed; infer_instance

/-! ## Grid lines (lines 226-231 of `main`) -/

/-- The arguments `x1, y1, x2, y2` of a call
`SDL_RenderDrawLine(renderer, x1, y1, x2, y2)`. -/
structure DrawLine where
  x1 : Int
  y1 : Int
  x2 : Int
  y2 : Int
  deriving DecidableEq

/-- Lines 226-231: the lines drawn in one frame, in order.  In iteration `i`
the code computes `posx = i * field_width` and `posy = i * field_height` and
calls `SDL_RenderDrawLine(renderer, 0, posx, window_width, posx)` and then
`SDL_RenderDrawLine(renderer, posy, 0, posy, window_height)`. -/
def render_grid_lines (window_width window_height field_width field_height : Int) :
    Access (List DrawLine) :=
  for_up (fun i out =>
    let posx := size_t_mul_int i field_width
    let posy := size_t_mul_int i field_height
    pure (out ++ [⟨0, posx, window_width, posx⟩, ⟨posy, 0, posy, window_height⟩]))
    1 (CELLS_DIM - 1) []

/-- The grid lines in the words of the specification: for each `i` in
`1..N-1` a horizontal line at height `i * field_height` across the window and a
vertical line at abscissa `i * field_width` down the window. -/
def expected_grid_lines (window_width window_height field_width field_height : Int) :
    List DrawLine :=
  (List.range' 1 (CELLS_DIM - 1)).flatMap (fun i =>
    [⟨0, i * field_height, window_width, i * field_height⟩,
     ⟨i * field_width, 0, i * field_width, window_height⟩])

/-! ## The accesses of `board_randomize` -/

/-- One iteration of the shuffle loops: the loop cell `cells[y][x]` and the
partner `cells[j][i]` it is exchanged with. -/
structure ShuffleSwap where
  y : Nat
  x : Nat
  j : Nat
  i : Nat
  deriving DecidableEq

/-- The index pairs used by lines 78-80 in one iteration, in order. -/
def ShuffleSwap.accesses (s : ShuffleSwap) : List (Int × Int) :=
  [((s.y : Int), (s.x : Int)), ((s.j : Int), (s.i : Int)),
   ((s.y : Int), (s.x : Int)), ((s.j : Int), (s.i : Int))]

/-- The nine iterations of the shuffle loops as the loop nest describes them:
iteration `n` (counted from 0) is at row `y = N-1 - n / (N-1)` and column
`x = N-1 - n % (N-1)`, and its partner is `i = rand() % (x + 1)`,
`j = rand() % (y + 1)` for the draws number `2 n` and `2 n + 1`. -/
def shuffle_swaps (draws : Nat → Nat) : List ShuffleSwap :=
  (List.range ((CELLS_DIM - 1) * (CELLS_DIM - 1))).map (fun n =>
    let y := CELLS_DIM - 1 - n / (CELLS_DIM - 1)
    let x := CELLS_DIM - 1 - n % (CELLS_DIM - 1)
    ⟨y, x, draws (2 * n + 1) % (y + 1), draws (2 * n) % (x + 1)⟩)

/-- The index pairs written by the fill loops, row by row. -/
def fill_accesses : List (Int × Int) :=
  (List.range CELLS_DIM).flatMap (fun y =>
    (List.range CELLS_DIM).map (fun x => ((y : Int), (x : Int))))

/-- The draws `2, 3, 2, 3, 1, 3, 3, 2, 2, 2, 1, 2, 3, 1, 2, 1, 1, 1, 0, 0`, then
zeros. -/
def sample_draws (k : Nat) : Nat :=
  [2, 3, 2, 3, 1, 3, 3, 2, 2, 2, 1, 2, 3, 1, 2, 1, 1, 1, 0, 0].getD k 0

/-! ## Legal slides and solvability -/

/-- A legal slide: `(x, y)` is in range and the neighbour in direction `dir` is
inside the grid and holds the sentinel. -/
def legal_slide (b : Board) (x y : Nat) (dir : Direction) : Bool :=
  decide (x < CELLS_DIM) && decide (y < CELLS_DIM) &&
    match neighbour x y dir with
    | some (nx, ny) => decide (b.cell nx ny = some POINT_EMPTY)
    | none => false

/-- The board after a finite sequence of legal slides, each one a call of
`board_slide_piece`; `none` if one of the slides is not legal. -/
def slide_sequence : Board → List (Nat × Nat × Direction) → Option Board
  | b, [] => some b
  | b, (x, y, dir) :: rest =>
    if legal_slide b x y dir then
      (board_slide_piece b x y dir).bind (fun b1 => slide_sequence b1 rest)
    else none

/-- The solved arrangement: every cell `(x, y)` of the grid that does not hold
the sentinel holds `Point{x, y}`. -/
def Board.is_solved (b : Board) : Prop :=
  ∀ x, x < CELLS_DIM → ∀ y, y < CELLS_DIM →
    b.cell x y = some POINT_EMPTY ∨ b.cell x y = some ⟨x, y⟩

instance (b : Board) : Decidable b.is_solved := by
  unfold Board.is_solved; infer_instance

/-- The board that `board_randomize` leaves for the draws `sample_draws`: solved
order with the sentinel at `(0, 0)` and the tiles of `(2, 3)` and `(3, 3)`
exchanged. -/
def unsolvable_board : Board :=
  ⟨[POINT_EMPTY, ⟨1, 0⟩, ⟨2, 0⟩, ⟨3, 0⟩,
    ⟨0, 1⟩, ⟨1, 1⟩, ⟨2, 1⟩, ⟨3, 1⟩,
    ⟨0, 2⟩, ⟨1, 2⟩, ⟨2, 2⟩, ⟨3, 2⟩,
    ⟨0, 3⟩, ⟨1, 3⟩, ⟨3, 3⟩, ⟨2, 3⟩], rfl⟩

/-- The point at offset `k` of the solved board with the sentinel at `(0, 0)`. -/
def solved_tile (k : Fin 16) : Point :=
  if k.val = 0 then POINT_EMPTY else ⟨k.val % CELLS_DIM, k.val / CELLS_DIM⟩

/-- The colour of the grid position at offset `k` on a chessboard colouring:
`1` when column plus row is even, `-1` when it is odd. -/
def position_sign (k : Fin 16) : Int :=
  if (k.val % CELLS_DIM + k.val / CELLS_DIM) % 2 = 0 then 1 else -1

/-- The boards out of reach of the solved board: the cells are the points of
the solved board rearranged by a permutation `σ` of the sixteen offsets, the
sentinel is at offset `K`, and the sign of `σ` is opposite to the colour of
`K`. -/
def Board.odd_arrangement (b : Board) : Prop :=
  ∃ (σ : Equiv.Perm (Fin 16)) (K : Fin 16),
    (∀ k : Fin 16, b.cells[k.val]? = some (solved_tile (σ k))) ∧ σ K = 0 ∧
    ((Equiv.Perm.sign σ : ℤˣ) : Int) = - position_sign K

/-- The solved order with the sentinel in the last cell, `(3, 3)`. -/
def corner_board : Board :=
  ⟨[⟨0, 0⟩, ⟨1, 0⟩, ⟨2, 0⟩, ⟨3, 0⟩,
    ⟨0, 1⟩, ⟨1, 1⟩, ⟨2, 1⟩, ⟨3, 1⟩,
    ⟨0, 2⟩, ⟨1, 2⟩, ⟨2, 2⟩, ⟨3, 2⟩,
    ⟨0, 3⟩, ⟨1, 3⟩, ⟨2, 3⟩, POINT_EMPTY], rfl⟩

/-! ## Notions used by the later statements -/

/-- The opposite direction: left and right are exchanged, and so are up and down. -/
def opposite : Direction → Direction
  | DIR_UP => DIR_DOWN
  | DIR_DOWN => DIR_UP
  | DIR_LEFT => DIR_RIGHT
  | DIR_RIGHT => DIR_LEFT

/-- The state of the input translator right after a slide has fired on a drag
that started at `(100, 100)`: the button is down and the flag is cleared. -/
def fired_input : InputState := ⟨1, ⟨100, 100⟩, false⟩

/-- One frame with the button released at `(300, 100)`. -/
def release_frames : List MouseSample := [⟨0, 300, 100⟩]

/-- A new press at `(300, 100)` followed by a drag down to `(300, 161)` and on
to `(300, 300)`. -/
def press_frames : List MouseSample := [⟨1, 300, 161⟩, ⟨1, 300, 300⟩]

/-! ## Basic facts about the embedding -/

@[simp] theorem Access.val_pure {α : Type} (a : α) : (pure a : Access α).val = some a := rfl

@[simp] theorem Access.log_pure {α : Type} (a : α) : (pure a : Access α).log = [] := rfl

@[simp] theorem Access.val_bind {α β : Type} (m : Access α) (f : α → Access β) :
    (m >>= f).val = m.val.bind (fun a => (f a).val) := by
  show (Access.bind m f).val = _
  unfold Access.bind
  cases m.val <;> rfl

@[simp] theorem rd_val (b : Board) (j i : Int) : (rd b j i).val = cells_get b j i := rfl

@[simp] theorem wr_val (b : Board) (j i : Int) (p : Point) :
    (wr b j i p).val = cells_set b j i p := rfl

theorem point_eq_iff (p q : Point) : point_eq p q = true ↔ p = q := by
  cases p; cases q; simp [point_eq]

theorem cells_index_nat (y x : Nat) (h : y * 4 + x < 16) :
    cells_index (y : Int) (x : Int) = some (y * 4 + x) := by
  unfold cells_index
  have h1 : (0 : Int) ≤ (y : Int) * (CELLS_DIM : Nat) + x ∧
      (y : Int) * (CELLS_DIM : Nat) + x < ((CELLS_DIM : Nat) : Int) * (CELLS_DIM : Nat) := by
    constructor <;> simp only [CELLS_DIM] <;> omega
  simp only [h1, and_self, if_true]
  rfl

theorem cells_get_nat (b : Board) (y x : Nat) (h : y * 4 + x < 16) :
    cells_get b (y : Int) (x : Int) = b.cells[y * 4 + x]? := by
  unfold cells_get
  rw [cells_index_nat y x h]
  rfl

theorem cells_set_nat (b : Board) (y x : Nat) (p : Point) (h : y * 4 + x < 16) :
    ∃ b', cells_set b (y : Int) (x : Int) p = some b' ∧ b'.cells = b.cells.set (y * 4 + x) p := by
  unfold cells_set
  rw [cells_index_nat y x h]
  exact ⟨_, rfl, rfl⟩

theorem list_swap_perm {α : Type} [DecidableEq α] (l : List α) (k1 k2 : Nat) (t v : α)
    (h1 : l[k1]? = some t) (h2 : l[k2]? = some v) : ((l.set k1 v).set k2 t).Perm l := by
  obtain ⟨b1, e1⟩ := List.getElem?_eq_some.mp h1
  obtain ⟨b2, e2⟩ := List.getElem?_eq_some.mp h2
  by_cases hk : k1 = k2
  · subst hk
    have htv : t = v := by rw [← e1, ← e2]
    subst htv
    have : (l.set k1 t).set k1 t = l := by
      apply List.ext_getElem?
      intro n
      by_cases hn : k1 = n
      · subst hn; simp [List.getElem?_set, b1, h1]
      · simp [List.getElem?_set, hn]
    rw [this]
  · rw [List.perm_iff_count]
    intro a
    have b2' : k2 < (l.set k1 v).length := by simpa using b2
    rw [List.count_set _ _ _ _ b2', List.count_set _ _ _ _ b1]
    have e3 : (l.set k1 v)[k2] = v := by
      rw [List.getElem_set_ne hk]; exact e2
    rw [e3, e1]
    have hmem : t ∈ l := e1 ▸ List.getElem_mem _
    by_cases hta : t = a
    · subst hta
      have : 0 < l.count t := List.count_pos_iff.mpr hmem
      by_cases hva : v = t <;> simp [hva] <;> omega
    · by_cases hva : v = a <;> simp [hta, hva]

theorem cells_index_lt {j i : Int} {k : Nat} (h : cells_index j i = some k) : k < 16 := by
  unfold cells_index at h
  simp only [CELLS_DIM] at h
  split at h
  · simp only [Option.some.injEq] at h
    omega
  · simp at h

/-- The three-line exchange `temp = c[y][x]; c[y][x] = c[j][i]; c[j][i] = temp`
of two cells inside the board exchanges the two list entries. -/
theorem swap_spec (b : Board) (y x j i : Int) (k1 k2 : Nat)
    (h1 : cells_index y x = some k1) (h2 : cells_index j i = some k2) :
    ∃ b' t v,
      (swap_cells b y x j i).val = some b' ∧
      b.cells[k1]? = some t ∧ b.cells[k2]? = some v ∧
      b'.cells = (b.cells.set k1 v).set k2 t := by
  have l1 : k1 < b.cells.length := by rw [b.size_eq]; exact cells_index_lt h1
  have l2 : k2 < b.cells.length := by rw [b.size_eq]; exact cells_index_lt h2
  refine ⟨⟨(b.cells.set k1 b.cells[k2]).set k2 b.cells[k1], by simp [b.size_eq]⟩,
    b.cells[k1], b.cells[k2], ?_, ?_, ?_, rfl⟩
  · simp [swap_cells, cells_get, cells_set, h1, h2, List.getElem?_eq_getElem, l1, l2]
  · simp [List.getElem?_eq_getElem, l1]
  · simp [List.getElem?_eq_getElem, l2]

theorem swap_perm (b : Board) (y x j i : Int) (k1 k2 : Nat)
    (h1 : cells_index y x = some k1) (h2 : cells_index j i = some k2) :
    ∃ b',
      (swap_cells b y x j i).val = some b' ∧
      b'.cells.Perm b.cells := by
  obtain ⟨b', t, v, hv, ht, hv2, hc⟩ := swap_spec b y x j i k1 k2 h1 h2
  exact ⟨b', hv, hc ▸ list_swap_perm b.cells k1 k2 t v ht hv2⟩

/-- A down-counting loop returns and keeps an invariant that its body keeps. -/
theorem for_down_inv {σ : Type} (P : σ → Prop) (body : Nat → σ → Access σ) (n : Nat)
    (h : ∀ v s, 0 < v → v ≤ n → P s → ∃ s', (body v s).val = some s' ∧ P s') :
    ∀ s, P s → ∃ s', (for_down body n s).val = some s' ∧ P s' := by
  induction n with
  | zero => intro s hs; exact ⟨s, rfl, hs⟩
  | succ m ih =>
    intro s hs
    obtain ⟨s1, e1, p1⟩ := h (m + 1) s (Nat.succ_pos m) (Nat.le_refl _) hs
    obtain ⟨s2, e2, p2⟩ := ih (fun v t hv hle => h v t hv (Nat.le_succ_of_le hle)) s1 p1
    refine ⟨s2, ?_, p2⟩
    simp only [for_down, Access.val_bind, e1, Option.some_bind, e2]

theorem shuffle_body_perm (draws : Nat → Nat) (y x : Nat) (hy : y < 4) (hx : x < 4)
    (st : Board × Nat) :
    ∃ st', (shuffle_body draws y x st).val = some st' ∧ st'.1.cells.Perm st.1.cells ∧
      st'.2 = st.2 + 2 := by
  have hi : draws st.2 % (x + 1) < x + 1 := Nat.mod_lt _ (Nat.succ_pos x)
  have hj : draws (st.2 + 1) % (y + 1) < y + 1 := Nat.mod_lt _ (Nat.succ_pos y)
  obtain ⟨b', hv, hp⟩ := swap_perm st.1 y x (draws (st.2 + 1) % (y + 1) : Nat)
    (draws st.2 % (x + 1) : Nat) _ _ (cells_index_nat y x (by omega))
    (cells_index_nat _ _ (by omega))
  refine ⟨(b', st.2 + 2), ?_, hp, rfl⟩
  simp only [shuffle_body, Access.val_bind, Access.val_pure, hv, Option.some_bind]

theorem board_shuffle_perm (draws : Nat → Nat) (st : Board × Nat) :
    ∃ st', (board_shuffle draws st).val = some st' ∧ st'.1.cells.Perm st.1.cells := by
  unfold board_shuffle
  refine for_down_inv (fun s : Board × Nat => s.1.cells.Perm st.1.cells) _ _ ?_ st
    (List.Perm.refl _)
  intro y s _ hy hs
  refine for_down_inv (fun s : Board × Nat => s.1.cells.Perm st.1.cells) _ _ ?_ s hs
  intro x t _ hx ht
  obtain ⟨t', e, p, _⟩ := shuffle_body_perm draws y x
    (Nat.lt_of_le_of_lt hy (by decide)) (Nat.lt_of_le_of_lt hx (by decide)) t
  exact ⟨t', e, p.trans ht⟩

/-- A board is a list of exactly sixteen points. -/
theorem Board.cells_eq (b : Board) :
    ∃ a0 a1 a2 a3 a4 a5 a6 a7 a8 a9 a10 a11 a12 a13 a14 a15 : Point,
      b.cells = [a0, a1, a2, a3, a4, a5, a6, a7, a8, a9, a10, a11, a12, a13, a14, a15] := by
  obtain ⟨l, h⟩ := b
  rcases l with _ | ⟨a0, _ | ⟨a1, _ | ⟨a2, _ | ⟨a3, _ | ⟨a4, _ | ⟨a5, _ | ⟨a6, _ | ⟨a7,
    _ | ⟨a8, _ | ⟨a9, _ | ⟨a10, _ | ⟨a11, _ | ⟨a12, _ | ⟨a13, _ | ⟨a14, _ | ⟨a15, _ | ⟨a16, l⟩⟩⟩⟩⟩⟩⟩⟩⟩⟩⟩⟩⟩⟩⟩⟩⟩ <;>
    simp only [CELLS_DIM, List.length_cons, List.length_nil] at h <;>
    first
      | exact ⟨_, _, _, _, _, _, _, _, _, _, _, _, _, _, _, _, rfl⟩
      | omega

/-- The fill loops return the board in solved order, whatever the board held. -/
theorem board_fill_val (b : Board) : (board_fill b).val = some solved_full := by
  obtain ⟨a0, a1, a2, a3, a4, a5, a6, a7, a8, a9, a10, a11, a12, a13, a14, a15, h⟩ := b.cells_eq
  obtain ⟨l, hl⟩ := b
  simp only at h
  subst h
  rfl

theorem solved_full_count (a : Point) :
    solved_full.cells.count a = if a.in_grid then 1 else 0 := by
  obtain ⟨x, y⟩ := a
  by_cases h : (Point.mk x y).in_grid
  · rw [if_pos h]
    obtain ⟨hx, hy⟩ := h
    simp only [CELLS_DIM] at hx hy
    interval_cases x <;> interval_cases y <;> rfl
  · rw [if_neg h]
    apply List.count_eq_zero.mpr
    intro hm
    exact h ((by decide : ∀ c ∈ solved_full.cells, c.in_grid) _ hm)

theorem empty_not_in_grid : ¬ POINT_EMPTY.in_grid := by decide

theorem empty_count_eq (b : Board) : empty_count b = b.cells.count POINT_EMPTY := by
  unfold empty_count List.count
  congr 1
  funext c
  by_cases h : c = POINT_EMPTY
  · subst h; decide
  · have h1 : point_eq c POINT_EMPTY = false := by
      rw [← Bool.not_eq_true, point_eq_iff]; exact h
    rw [h1]
    exact (beq_eq_false_iff_ne.mpr h).symm

/-- What `board_randomize` leaves: it returns, and the returned board holds the
sentinel once and every coordinate of the grid once, except one coordinate
`m`, which it does not hold. -/
theorem board_randomize_count (draws : Nat → Nat) (b0 : Board) :
    ∃ b m, board_randomize draws b0 = some b ∧ m.in_grid ∧
      ∀ a, b.cells.count a =
        if a = POINT_EMPTY then 1 else if a.in_grid ∧ a ≠ m then 1 else 0 := by
  obtain ⟨st, hst, hperm⟩ := board_shuffle_perm draws (solved_full, 0)
  have hx : draws st.2 % CELLS_DIM < 4 := Nat.mod_lt _ (by decide)
  have hy : draws (st.2 + 1) % CELLS_DIM < 4 := Nat.mod_lt _ (by decide)
  obtain ⟨b, hb, hcells⟩ := cells_set_nat st.1 (draws st.2 % CELLS_DIM)
    (draws (st.2 + 1) % CELLS_DIM) POINT_EMPTY (by omega)
  have hk : draws st.2 % CELLS_DIM * 4 + draws (st.2 + 1) % CELLS_DIM < st.1.cells.length := by
    rw [st.1.size_eq]; simp only [CELLS_DIM] at hx hy ⊢; omega
  generalize draws st.2 % CELLS_DIM * 4 + draws (st.2 + 1) % CELLS_DIM = k at hcells hk
  have hmem : st.1.cells[k] ∈ solved_full.cells := hperm.mem_iff.mp (List.getElem_mem _)
  have hm : (st.1.cells[k]).in_grid := (by decide : ∀ c ∈ solved_full.cells, c.in_grid) _ hmem
  refine ⟨b, st.1.cells[k], ?_, hm, ?_⟩
  · simp only [board_randomize, board_randomize_trace, Access.val_bind, board_fill_val,
      Option.some_bind, hst, wr_val, hb]
  · intro a
    rw [hcells, List.count_set _ _ _ _ hk, hperm.count_eq, solved_full_count]
    by_cases ha : a = POINT_EMPTY
    · subst ha
      simp [empty_not_in_grid]
    · have h1 : (POINT_EMPTY == a) = false := beq_eq_false_iff_ne.mpr (Ne.symm ha)
      rw [if_neg ha, h1]
      by_cases hg : a.in_grid
      · by_cases ham : a = st.1.cells[k]
        · subst ham; simp [hg]
        · have h2 : (st.1.cells[k] == a) = false := beq_eq_false_iff_ne.mpr (Ne.symm ham)
          simp [hg, ham, h2]
      · have h2 : (st.1.cells[k] == a) = false :=
          beq_eq_false_iff_ne.mpr (fun e => hg (e ▸ hm))
        simp [hg, h2]

/-! ## Claims about `board_randomize` -/

/-- C1: for every sequence of draws (and whatever the board held before),
`board_randomize` returns a board of sixteen cells of which exactly one
compares equal to `POINT_EMPTY`. -/
theorem board_randomize_one_empty (draws : Nat → Nat) (b0 : Board) :
    ∃ b, board_randomize draws b0 = some b ∧ b.cells.length = 16 ∧ empty_count b = 1 := by
  obtain ⟨b, m, hb, _, hc⟩ := board_randomize_count draws b0
  refine ⟨b, hb, b.size_eq, ?_⟩
  rw [empty_count_eq, hc, if_pos rfl]

/-- C2: for every sequence of draws, the board returned by `board_randomize`
has fifteen cells other than the sentinel; they are pairwise distinct and each
has `x < N` and `y < N`; exactly one coordinate `m` of the `N * N` space is
absent from the board and every other coordinate is held by exactly one cell. -/
theorem board_randomize_distinct (draws : Nat → Nat) (b0 : Board) :
    ∃ b, board_randomize draws b0 = some b ∧
      (b.cells.filter (fun c => !point_eq c POINT_EMPTY)).length = 15 ∧
      (b.cells.filter (fun c => !point_eq c POINT_EMPTY)).Nodup ∧
      (∀ c ∈ b.cells.filter (fun c => !point_eq c POINT_EMPTY), c.x < CELLS_DIM ∧ c.y < CELLS_DIM) ∧
      ∃ m : Point, m.in_grid ∧
        ∀ p : Point, p.in_grid → b.cells.count p = if p = m then 0 else 1 := by
  obtain ⟨b, m, hb, hm, hc⟩ := board_randomize_count draws b0
  have hne : ∀ c : Point, (!point_eq c POINT_EMPTY) = true ↔ c ≠ POINT_EMPTY := by
    intro c
    rw [Bool.not_eq_true', ← Bool.not_eq_true, point_eq_iff]
  refine ⟨b, hb, ?_, ?_, ?_, m, hm, ?_⟩
  · have h1 := List.length_eq_countP_add_countP (fun c => point_eq c POINT_EMPTY) b.cells
    have h2 : empty_count b = 1 := by rw [empty_count_eq, hc, if_pos rfl]
    unfold empty_count at h2
    rw [b.size_eq, h2] at h1
    rw [← List.countP_eq_length_filter]
    have h3 : List.countP (fun c => !point_eq c POINT_EMPTY) b.cells =
        List.countP (fun a => decide ¬point_eq a POINT_EMPTY = true) b.cells :=
      List.countP_congr (fun c _ => by simp)
    rw [h3]
    generalize List.countP (fun a => decide ¬point_eq a POINT_EMPTY = true) b.cells = n at h1
    simp only [CELLS_DIM] at h1
    omega
  · rw [List.nodup_iff_count_le_one]
    intro a
    by_cases ha : (!point_eq a POINT_EMPTY) = true
    · have hf : List.count a (List.filter (fun c => !point_eq c POINT_EMPTY) b.cells) =
          List.count a b.cells := List.count_filter ha
      rw [hf, hc, if_neg ((hne a).mp ha)]
      split <;> omega
    · have : a ∉ b.cells.filter (fun c => !point_eq c POINT_EMPTY) := by
        intro hmem
        exact ha (List.mem_filter.mp hmem).2
      rw [List.count_eq_zero.mpr this]
      omega
  · intro c hcm
    obtain ⟨hcb, hcn⟩ := List.mem_filter.mp hcm
    have hpos : 0 < b.cells.count c := List.count_pos_iff.mpr hcb
    rw [hc, if_neg ((hne c).mp hcn)] at hpos
    by_cases hg : c.in_grid ∧ c ≠ m
    · exact hg.1
    · rw [if_neg hg] at hpos; omega
  · intro p hp
    have hpe : p ≠ POINT_EMPTY := fun e => empty_not_in_grid (e ▸ hp)
    rw [hc, if_neg hpe]
    by_cases hpm : p = m <;> simp [hpm, hp]

/-! ## Facts about `board_slide_piece` -/

theorem size_t_to_int_small (x : Nat) (h : x < 2147483648) : size_t_to_int x = x := by
  unfold size_t_to_int
  have h1 : (x : Int) % 4294967296 = x := by omega
  simp only [h1]
  rw [if_pos (by omega)]

/-- With a neighbour inside the grid the bounds check passes and the function
reads the neighbour, then exchanges the two cells if it is the sentinel. -/
theorem slide_trace_neighbour (b : Board) (x y nx ny : Nat) (dir : Direction)
    (hx : x < 4) (hy : y < 4) (hn : neighbour x y dir = some (nx, ny)) :
    nx < 4 ∧ ny < 4 ∧
    board_slide_piece_trace b x y dir =
      (rd b ny nx >>= fun n =>
        if !point_eq n POINT_EMPTY then pure b else swap_cells b y x ny nx) := by
  have ex := size_t_to_int_small x (by omega)
  have ey := size_t_to_int_small y (by omega)
  cases dir <;> simp only [neighbour, CELLS_DIM] at hn <;> split at hn <;>
    simp only [Option.some.injEq, Prod.mk.injEq, reduceCtorEq] at hn <;>
    obtain ⟨h1, h2⟩ := hn <;> subst h1 <;> subst h2 <;>
    refine ⟨by omega, by omega, ?_⟩ <;>
    unfold board_slide_piece_trace <;> rw [ex, ey] <;> dsimp only <;>
    rw [if_neg (by simp only [CELLS_DIM]; omega)]
  · rw [show ((y - 1 : Nat) : Int) = (y : Int) - 1 by omega]
  · rw [show ((y + 1 : Nat) : Int) = (y : Int) + 1 by omega]
  · rw [show ((x - 1 : Nat) : Int) = (x : Int) - 1 by omega]
  · rw [show ((x + 1 : Nat) : Int) = (x : Int) + 1 by omega]

theorem neighbour_ne (x y nx ny : Nat) (dir : Direction)
    (hn : neighbour x y dir = some (nx, ny)) : (nx, ny) ≠ (x, y) := by
  cases dir <;> simp only [neighbour, CELLS_DIM] at hn <;> split at hn <;>
    simp only [Option.some.injEq, Prod.mk.injEq, reduceCtorEq] at hn <;>
    obtain ⟨h1, h2⟩ := hn <;> subst h1 <;> subst h2 <;>
    simp only [ne_eq, Prod.mk.injEq, not_and] <;> omega

theorem Board.cell_in (b : Board) (x y : Nat) (hx : x < 4) (hy : y < 4) :
    b.cell x y = b.cells[y * 4 + x]? := by
  unfold Board.cell
  rw [if_pos ⟨hx, hy⟩]

theorem point_eq_self (p : Point) : point_eq p p = true := (point_eq_iff p p).mpr rfl

/-- A legal slide: the value of `board_slide_piece` when the neighbour is
inside the grid and holds the sentinel. -/
theorem slide_legal (b : Board) (x y nx ny : Nat) (dir : Direction)
    (hx : x < 4) (hy : y < 4) (hn : neighbour x y dir = some (nx, ny))
    (he : b.cell nx ny = some POINT_EMPTY) :
    ∃ b' t, board_slide_piece b x y dir = some b' ∧ b.cells[y * 4 + x]? = some t ∧
      b'.cells = (b.cells.set (y * 4 + x) POINT_EMPTY).set (ny * 4 + nx) t := by
  obtain ⟨hnx, hny, htr⟩ := slide_trace_neighbour b x y nx ny dir hx hy hn
  rw [b.cell_in nx ny hnx hny] at he
  obtain ⟨b', t, v, hv, ht, hv2, hc⟩ := swap_spec b y x ny nx _ _
    (cells_index_nat y x (by omega)) (cells_index_nat ny nx (by omega))
  rw [he] at hv2
  obtain rfl : POINT_EMPTY = v := Option.some.inj hv2
  refine ⟨b', t, ?_, ht, hc⟩
  unfold board_slide_piece
  rw [htr, Access.val_bind, rd_val, cells_get_nat b ny nx (by omega), he, Option.some_bind,
    point_eq_self]
  exact hv

/-- A neighbour inside the grid that does not hold the sentinel: nothing moves. -/
theorem slide_blocked (b : Board) (x y nx ny : Nat) (dir : Direction) (p : Point)
    (hx : x < 4) (hy : y < 4) (hn : neighbour x y dir = some (nx, ny))
    (hp : b.cell nx ny = some p) (hne : p ≠ POINT_EMPTY) :
    board_slide_piece b x y dir = some b := by
  obtain ⟨hnx, hny, htr⟩ := slide_trace_neighbour b x y nx ny dir hx hy hn
  rw [b.cell_in nx ny hnx hny] at hp
  have h1 : point_eq p POINT_EMPTY = false := by
    rw [← Bool.not_eq_true, point_eq_iff]; exact hne
  unfold board_slide_piece
  rw [htr, Access.val_bind, rd_val, cells_get_nat b ny nx (by omega), hp, Option.some_bind, h1]
  rfl

/-- A neighbour with a negative index is rejected before any access. -/
theorem slide_below_zero (b : Board) (x y : Nat) (dir : Direction) (hx : x < 4) (hy : y < 4)
    (h : (dir = DIR_LEFT ∧ x = 0) ∨ (dir = DIR_UP ∧ y = 0)) :
    board_slide_piece_trace b x y dir = pure b := by
  have ex := size_t_to_int_small x (by omega)
  have ey := size_t_to_int_small y (by omega)
  unfold board_slide_piece_trace
  rw [ex, ey]
  rcases h with ⟨rfl, rfl⟩ | ⟨rfl, rfl⟩ <;> dsimp only <;>
    rw [if_pos (by simp only [CELLS_DIM]; omega)]

/-- Whenever `board_slide_piece` returns, for `(x, y)` in range, the board it
returns holds the same points as before, so as many sentinels. -/
theorem slide_perm_of_some (b b' : Board) (x y : Nat) (dir : Direction)
    (hx : x < 4) (hy : y < 4) (h : board_slide_piece b x y dir = some b') :
    b'.cells.Perm b.cells := by
  have ex := size_t_to_int_small x (by omega)
  have ey := size_t_to_int_small y (by omega)
  unfold board_slide_piece board_slide_piece_trace at h
  rw [ex, ey] at h
  dsimp only at h
  generalize (match dir with
    | DIR_RIGHT => (x : Int) + 1
    | DIR_LEFT => (x : Int) - 1
    | _ => (x : Int)) = i at h
  generalize (match dir with
    | DIR_UP => (y : Int) - 1
    | DIR_DOWN => (y : Int) + 1
    | _ => (y : Int)) = j at h
  split at h
  · obtain rfl : b = b' := Option.some.inj h
    exact List.Perm.refl _
  · rw [Access.val_bind, rd_val] at h
    cases hk : cells_index j i with
    | none => simp [cells_get, hk] at h
    | some k =>
      cases hg : cells_get b j i with
      | none => simp [hg] at h
      | some n =>
        rw [hg, Option.some_bind] at h
        split at h
        · obtain rfl : b = b' := Option.some.inj h
          exact List.Perm.refl _
        · obtain ⟨b2, e2, p2⟩ := swap_perm b y x j i _ k (cells_index_nat y x (by omega)) hk
          rw [e2] at h
          obtain rfl : b2 = b' := Option.some.inj h
          exact p2

theorem slide_empty_count_of_some (b b' : Board) (x y : Nat) (dir : Direction)
    (hx : x < 4) (hy : y < 4) (h : board_slide_piece b x y dir = some b') :
    empty_count b' = empty_count b := by
  unfold empty_count
  exact (slide_perm_of_some b b' x y dir hx hy h).countP_eq _

/-! ## Claims about `board_slide_piece` -/

/-- C3 (as the code behaves at `x = N - 1` with `DIR_RIGHT`): on the board
`wrap_board` the cell `(3, 0)` has no neighbour to its right inside the grid,
yet `board_slide_piece(3, 0, DIR_RIGHT)` passes the bounds check `i > CELLS_DIM`
with `i = 4`, reads `cells[0][4]` (the storage of `cells[1][0]`, which holds the
sentinel) and exchanges the two cells: the board after the call differs from
the board before it.  The last conjunct is the scenario of the specification,
which does hold: on the solved board nothing moves from `(2, 0)` to the left. -/
theorem slide_right_edge_changes_board :
    neighbour 3 0 DIR_RIGHT = none ∧
    board_slide_piece wrap_board 3 0 DIR_RIGHT = some wrap_board_after ∧
    wrap_board_after ≠ wrap_board ∧
    board_slide_piece solved_board 2 0 DIR_LEFT = some solved_board := by
  decide

/-- C4: for every board (so also for every board that satisfies the board
invariant), every `(x, y)` in range and every `dir` whose neighbour `(nx, ny)`
is inside the grid and holds the sentinel, `board_slide_piece` returns a board
in which `(x, y)` holds the sentinel, `(nx, ny)` holds the point that was at
`(x, y)`, and every other cell is unchanged. -/
theorem board_slide_piece_moves (b : Board) (x y nx ny : Nat) (dir : Direction)
    (hx : x < CELLS_DIM) (hy : y < CELLS_DIM) (hn : neighbour x y dir = some (nx, ny))
    (he : b.cell nx ny = some POINT_EMPTY) :
    ∃ b' p, board_slide_piece b x y dir = some b' ∧
      b.cell x y = some p ∧
      b'.cell x y = some POINT_EMPTY ∧
      b'.cell nx ny = some p ∧
      ∀ cx cy, (cx, cy) ≠ (x, y) → (cx, cy) ≠ (nx, ny) → b'.cell cx cy = b.cell cx cy := by
  obtain ⟨b', t, hv, ht, hc⟩ := slide_legal b x y nx ny dir hx hy hn he
  obtain ⟨hnx, hny, -⟩ := slide_trace_neighbour b x y nx ny dir hx hy hn
  have hne := neighbour_ne x y nx ny dir hn
  have hk1 : y * 4 + x < b.cells.length := by rw [b.size_eq]; simp only [CELLS_DIM] at *; omega
  have hk2 : ny * 4 + nx < b.cells.length := by rw [b.size_eq]; simp only [CELLS_DIM] at *; omega
  have hkne : ny * 4 + nx ≠ y * 4 + x := by
    intro e
    apply hne
    simp only [Prod.mk.injEq]
    simp only [CELLS_DIM] at hx
    omega
  refine ⟨b', t, hv, ?_, ?_, ?_, ?_⟩
  · rw [b.cell_in x y hx hy]; exact ht
  · rw [b'.cell_in x y hx hy, hc, List.getElem?_set_ne hkne, List.getElem?_set_self hk1]
  · rw [b'.cell_in nx ny hnx hny, hc, List.getElem?_set_self (by simpa using hk2)]
  · intro cx cy h1 h2
    unfold Board.cell
    by_cases hin : cx < CELLS_DIM ∧ cy < CELLS_DIM
    · rw [if_pos hin, if_pos hin, hc]
      have e1 : ny * 4 + nx ≠ cy * CELLS_DIM + cx := by
        intro e
        apply h2
        simp only [Prod.mk.injEq]
        simp only [CELLS_DIM] at hin e
        omega
      have e2 : y * 4 + x ≠ cy * CELLS_DIM + cx := by
        intro e
        apply h1
        simp only [Prod.mk.injEq]
        simp only [CELLS_DIM] at hin e hx
        omega
      rw [List.getElem?_set_ne e1, List.getElem?_set_ne e2]
    · rw [if_neg hin, if_neg hin]

/-- The scenario of the specification: on the solved board with the sentinel at
`(0, 0)`, the slide from `(1, 0)` to the left puts the sentinel at `(1, 0)` and
`Point{1, 0}` at `(0, 0)`. -/
theorem board_slide_piece_moves_witness :
    (neighbour 1 0 DIR_LEFT = some (0, 0) ∧ solved_board.cell 0 0 = some POINT_EMPTY) ∧
    (∃ b' p, board_slide_piece solved_board 1 0 DIR_LEFT = some b' ∧
      solved_board.cell 1 0 = some p ∧
      b'.cell 1 0 = some POINT_EMPTY ∧
      b'.cell 0 0 = some p ∧
      ∀ cx cy, (cx, cy) ≠ (1, 0) → (cx, cy) ≠ (0, 0) →
        b'.cell cx cy = solved_board.cell cx cy) ∧
    solved_board.cell 1 0 = some ⟨1, 0⟩ ∧
    board_slide_piece solved_board 1 0 DIR_LEFT = some solved_board_after :=
  ⟨⟨by decide, by decide⟩,
    board_slide_piece_moves solved_board 1 0 0 0 DIR_LEFT (by decide) (by decide) (by decide)
      (by decide),
    by decide, by decide⟩

/-- C5 (as the code behaves in the last column of the last row): the solved
board has exactly one sentinel, and the in-range calls
`board_slide_piece(3, 3, DIR_RIGHT)` and `board_slide_piece(3, 3, DIR_DOWN)` pass
the bounds check with an index equal to `CELLS_DIM` and read `cells[3][4]`,
respectively `cells[4][3]`, which lie outside the `Board` object: the call has
no defined resulting board. -/
theorem slide_corner_leaves_board :
    empty_count solved_board = 1 ∧
    board_slide_piece solved_board 3 3 DIR_RIGHT = none ∧
    (board_slide_piece_trace solved_board 3 3 DIR_RIGHT).log = [(3, 4)] ∧
    board_slide_piece solved_board 3 3 DIR_DOWN = none ∧
    (board_slide_piece_trace solved_board 3 3 DIR_DOWN).log = [(4, 3)] := by
  decide

/-- C6 (as the code behaves at the right and bottom edges): for the in-range
cell `(3, 0)` and `DIR_RIGHT` the first index pair used on `board->cells` is
`(j, i) = (0, 4)`, and for `(0, 3)` and `DIR_DOWN` it is `(4, 0)`: an index equal
to `N` is not rejected by the bounds check. -/
theorem slide_edge_access_log :
    (board_slide_piece_trace solved_board 3 0 DIR_RIGHT).log = [(0, 4)] ∧
    (board_slide_piece_trace solved_board 0 3 DIR_DOWN).log = [(4, 0)] ∧
    (board_slide_piece_trace wrap_board 3 0 DIR_RIGHT).log =
      [(0, 4), (0, 3), (0, 4), (0, 3), (0, 4)] := by
  decide

/-! ## Facts about the geometry helpers -/

/-- Below `2^62` the square root truncates to an `int`, which is not negative. -/
theorem sqrt_to_int_some (q : ℚ) (h : q < 4611686018427387904) :
    ∃ len : Int, sqrt_to_int q = some len ∧ 0 ≤ len := by
  have h1 : ⌊q⌋ < 4611686018427387904 := Int.floor_lt.mpr (by exact_mod_cast h)
  have h2 : ⌊q⌋.toNat < 2147483648 * 2147483648 := by omega
  have h3 : Nat.sqrt ⌊q⌋.toNat < 2147483648 := Nat.sqrt_lt.mpr h2
  refine ⟨(Nat.sqrt ⌊q⌋.toNat : Nat), ?_, Int.natCast_nonneg _⟩
  unfold sqrt_to_int
  rw [if_pos h3]

/-- From `2^62` on the truncated square root is larger than `INT_MAX`. -/
theorem sqrt_to_int_none (q : ℚ) (h : 4611686018427387904 ≤ q) : sqrt_to_int q = none := by
  have h1 : (4611686018427387904 : Int) ≤ ⌊q⌋ := Int.le_floor.mpr (by exact_mod_cast h)
  have h2 : 2147483648 * 2147483648 ≤ ⌊q⌋.toNat := by omega
  have h3 : 2147483648 ≤ Nat.sqrt ⌊q⌋.toNat := Nat.le_sqrt.mpr h2
  unfold sqrt_to_int
  rw [if_neg (by omega)]

/-- When the length truncates to an `int` the function returns, and normalising
does not change the class. -/
theorem dir_from_vec2_eq (a b : Vec2)
    (h : (b.x - a.x) * (b.x - a.x) + (b.y - a.y) * (b.y - a.y) < 4611686018427387904) :
    dir_from_vec2 a b = some (dir_reference (b.x - a.x) (b.y - a.y)) := by
  unfold dir_from_vec2 dir_reference
  dsimp only
  revert h
  generalize b.x - a.x = dx
  generalize b.y - a.y = dy
  intro h
  obtain ⟨len, hsome, hlen⟩ := sqrt_to_int_some (dx * dx + dy * dy) h
  rw [hsome]
  by_cases h0 : len = 0
  · subst h0
    simp only [ne_eq, not_true_eq_false, if_false, Option.pure_def, Option.bind_eq_bind,
      Option.some_bind]
    split <;> rfl
  · have hpos : (0 : ℚ) < (len : ℚ) := by
      have : 0 < len := lt_of_le_of_ne hlen (Ne.symm h0)
      exact_mod_cast this
    have e1 : |dx / (len : ℚ)| ≥ |dy / (len : ℚ)| ↔ |dx| ≥ |dy| := by
      rw [abs_div, abs_div, abs_of_pos hpos]
      exact div_le_div_iff_of_pos_right hpos
    have e2 : dx / (len : ℚ) > 0 ↔ dx > 0 := div_pos_iff_of_pos_right hpos
    have e3 : dy / (len : ℚ) > 0 ↔ dy > 0 := div_pos_iff_of_pos_right hpos
    simp only [ne_eq, h0, not_false_eq_true, if_true, div_by_int, if_false, Option.pure_def,
      Option.bind_eq_bind, Option.some_bind, e1, e2, e3]
    split <;> rfl

/-- When the length does not truncate to an `int` the function has no defined
result. -/
theorem dir_from_vec2_undefined (a b : Vec2)
    (h : 4611686018427387904 ≤ (b.x - a.x) * (b.x - a.x) + (b.y - a.y) * (b.y - a.y)) :
    dir_from_vec2 a b = none := by
  unfold dir_from_vec2
  dsimp only
  rw [sqrt_to_int_none _ h]
  rfl

/-- The comparison of the squares decides the comparison of the distance. -/
theorem vec2_distance_gt_iff (v1 v2 : Vec2) (t : ℚ) (ht : 0 ≤ t) :
    vec2_distance_gt v1 v2 t = true ↔
      Real.sqrt ((vec2_distance_sq v1 v2 : ℚ) : ℝ) > (t : ℝ) := by
  unfold vec2_distance_gt
  rw [decide_eq_true_iff, gt_iff_lt, gt_iff_lt, Real.lt_sqrt (by exact_mod_cast ht)]
  rw [sq]
  exact_mod_cast Iff.rfl

/-- The natural number `Nat.sqrt ⌊q⌋` is the real square root of `q`, truncated. -/
theorem nat_sqrt_eq_floor (q : ℚ) (hq : 0 ≤ q) :
    ((Nat.sqrt ⌊q⌋.toNat : Nat) : Int) = ⌊Real.sqrt (q : ℝ)⌋ := by
  symm
  rw [Int.floor_eq_iff]
  have hfl : (0 : Int) ≤ ⌊q⌋ := Int.floor_nonneg.mpr hq
  obtain ⟨m, hm⟩ := Int.eq_ofNat_of_zero_le hfl
  rw [hm, Int.toNat_ofNat]
  have h1 : ((m : ℤ) : ℚ) ≤ q := hm ▸ Int.floor_le q
  have h2 : q < ((m : ℤ) : ℚ) + 1 := hm ▸ Int.lt_floor_add_one q
  have h1r : (m : ℝ) ≤ (q : ℝ) := by exact_mod_cast h1
  have h2r : (q : ℝ) < (m : ℝ) + 1 := by exact_mod_cast h2
  have l1 : Nat.sqrt m * Nat.sqrt m ≤ m := Nat.sqrt_le m
  have l2 : m < (Nat.sqrt m + 1) * (Nat.sqrt m + 1) := Nat.lt_succ_sqrt m
  have l1r : (Nat.sqrt m : ℝ) * (Nat.sqrt m : ℝ) ≤ (m : ℝ) := by exact_mod_cast l1
  have l2r : (m : ℝ) + 1 ≤ ((Nat.sqrt m : ℝ) + 1) * ((Nat.sqrt m : ℝ) + 1) := by
    exact_mod_cast l2
  constructor
  · push_cast
    apply Real.le_sqrt_of_sq_le
    nlinarith
  · push_cast
    rw [Real.sqrt_lt' (by positivity)]
    nlinarith

/-- The result of `sqrt_to_int q` is the real square root of `q`, truncated, when
that is at most `INT_MAX`, and undefined otherwise. -/
theorem sqrt_to_int_eq_floor (q : ℚ) (hq : 0 ≤ q) :
    sqrt_to_int q =
      if ⌊Real.sqrt (q : ℝ)⌋ < 2147483648 then some ⌊Real.sqrt (q : ℝ)⌋ else none := by
  have key := nat_sqrt_eq_floor q hq
  unfold sqrt_to_int
  rw [← key]
  by_cases h : Nat.sqrt ⌊q⌋.toNat < 2147483648
  · rw [if_pos h, if_pos (by exact_mod_cast h)]
  · rw [if_neg h, if_neg (by exact_mod_cast h)]

/-! ## Claims about `dir_from_vec2` -/

/-- C7 fails as stated: for the points `(0, 0)` and `(3000000000, 0)` the raw
displacement is classified right, but the length 3000000000 is larger than
`INT_MAX`, the conversion `int len = sqrt(..)` has no defined result, and
`dir_from_vec2` does not return the reference classification. -/
theorem dir_from_vec2_out_of_range :
    dir_reference ((3000000000 : ℚ) - 0) ((0 : ℚ) - 0) = DIR_RIGHT ∧
    sqrt_to_int (((3000000000 : ℚ) - 0) * ((3000000000 : ℚ) - 0) +
      ((0 : ℚ) - 0) * ((0 : ℚ) - 0)) = none ∧
    dir_from_vec2 ⟨0, 0⟩ ⟨3000000000, 0⟩ = none ∧
    dir_from_vec2 ⟨0, 0⟩ ⟨3000000000, 0⟩ ≠
      some (dir_reference ((3000000000 : ℚ) - 0) ((0 : ℚ) - 0)) := by
  have hn : dir_from_vec2 ⟨0, 0⟩ ⟨3000000000, 0⟩ = none :=
    dir_from_vec2_undefined _ _ (by norm_num)
  refine ⟨?_, sqrt_to_int_none _ (by norm_num), hn, ?_⟩
  · unfold dir_reference
    norm_num
  · rw [hn]
    exact fun h => Option.noConfusion h

/-- C7, amended: for every pair of points whose distance is below `2^31`
(`dx * dx + dy * dy < 2^62`, so that the length truncated to an `int` is
defined), `dir_from_vec2(a, b)` returns, and its result is the reference
classification of the raw displacement `(dx, dy) = (b.x - a.x, b.y - a.y)`:
right if `|dx| >= |dy|` and `dx > 0`, left if `|dx| >= |dy|` and `dx <= 0`, down if
`|dx| < |dy|` and `dy > 0`, up if `|dx| < |dy|` and `dy <= 0`.  The division by
the truncated length, which the code performs when that length is not zero,
does not change the result (arithmetic is exact). -/
theorem dir_from_vec2_reference (a b : Vec2)
    (h : (b.x - a.x) * (b.x - a.x) + (b.y - a.y) * (b.y - a.y) < 4611686018427387904) :
    dir_from_vec2 a b = some (dir_reference (b.x - a.x) (b.y - a.y)) ∧
    dir_reference (b.x - a.x) (b.y - a.y) =
      (if |b.x - a.x| ≥ |b.y - a.y| ∧ b.x - a.x > 0 then DIR_RIGHT
       else if |b.x - a.x| ≥ |b.y - a.y| ∧ b.x - a.x ≤ 0 then DIR_LEFT
       else if |b.x - a.x| < |b.y - a.y| ∧ b.y - a.y > 0 then DIR_DOWN
       else DIR_UP) := by
  refine ⟨dir_from_vec2_eq a b h, ?_⟩
  unfold dir_reference
  by_cases h1 : |b.x - a.x| ≥ |b.y - a.y|
  · by_cases h2 : b.x - a.x > 0
    · simp only [h1, h2, and_self, if_true]
    · simp only [h1, h2, if_true, if_false, and_false, true_and, not_lt.mp h2]
  · by_cases h2 : b.y - a.y > 0
    · simp only [h1, h2, if_true, if_false, false_and, not_le.mp h1, and_self]
    · simp only [h1, h2, if_false, false_and, and_false]

/-- The displacement `(3, 4)` has length 5 and is classified down; the
displacement `(-70, 10)` is classified left. -/
theorem dir_from_vec2_reference_witness :
    (((3 : ℚ) - 0) * ((3 : ℚ) - 0) + ((4 : ℚ) - 0) * ((4 : ℚ) - 0) < 4611686018427387904) ∧
    dir_from_vec2 ⟨0, 0⟩ ⟨3, 4⟩ = some DIR_DOWN ∧
    dir_from_vec2 ⟨100, 100⟩ ⟨30, 110⟩ = some DIR_LEFT := by
  have h1 := (dir_from_vec2_reference ⟨0, 0⟩ ⟨3, 4⟩ (by norm_num)).1
  have h2 := (dir_from_vec2_reference ⟨100, 100⟩ ⟨30, 110⟩ (by norm_num)).1
  have e1 : dir_reference ((3 : ℚ) - 0) ((4 : ℚ) - 0) = DIR_DOWN := by
    unfold dir_reference; norm_num
  have e2 : dir_reference ((30 : ℚ) - 100) ((110 : ℚ) - 100) = DIR_LEFT := by
    unfold dir_reference; norm_num
  rw [e1] at h1
  rw [e2] at h2
  exact ⟨by norm_num, h1, h2⟩

/-- C8 fails as stated: for the points `(0, 0)` and `(3000000000, 3000000000)`
the displacement is a tie with both components nonzero and `dx > 0`, but the
length, about 4242640687, is larger than `INT_MAX`, the conversion
`int len = sqrt(..)` has no defined result, and `dir_from_vec2` does not return
right. -/
theorem dir_from_vec2_tie_out_of_range :
    (|(3000000000 : ℚ) - 0| = |(3000000000 : ℚ) - 0| ∧ (3000000000 : ℚ) - 0 ≠ 0 ∧
      (3000000000 : ℚ) - 0 > 0) ∧
    dir_from_vec2 ⟨0, 0⟩ ⟨3000000000, 3000000000⟩ = none ∧
    dir_from_vec2 ⟨0, 0⟩ ⟨3000000000, 3000000000⟩ ≠ some DIR_RIGHT := by
  have hn : dir_from_vec2 ⟨0, 0⟩ ⟨3000000000, 3000000000⟩ = none :=
    dir_from_vec2_undefined _ _ (by norm_num)
  refine ⟨⟨rfl, by norm_num, by norm_num⟩, hn, ?_⟩
  rw [hn]
  exact fun h => Option.noConfusion h

/-- C8, amended: when `|dx| = |dy|`, both are nonzero and the distance is below
`2^31` (`dx * dx + dy * dy < 2^62`, so that the length truncated to an `int` is
defined), `dir_from_vec2(a, b)` returns right if `dx > 0` and left otherwise
(never up or down); when `dx = dy = 0` it divides by nothing (the truncated
length is zero and the division is skipped) and returns left. -/
theorem dir_from_vec2_tie_break (a b : Vec2) :
    (|b.x - a.x| = |b.y - a.y| → b.x - a.x ≠ 0 → b.y - a.y ≠ 0 →
      (b.x - a.x) * (b.x - a.x) + (b.y - a.y) * (b.y - a.y) < 4611686018427387904 →
      dir_from_vec2 a b = some (if b.x - a.x > 0 then DIR_RIGHT else DIR_LEFT)) ∧
    (b.x - a.x = 0 → b.y - a.y = 0 →
      sqrt_to_int ((b.x - a.x) * (b.x - a.x) + (b.y - a.y) * (b.y - a.y)) = some 0 ∧
      dir_from_vec2 a b = some DIR_LEFT) := by
  constructor
  · intro h _ _ hr
    rw [dir_from_vec2_eq a b hr, dir_reference, if_pos (le_of_eq h.symm)]
  · intro hx hy
    rw [dir_from_vec2_eq a b (by rw [hx, hy]; norm_num), dir_reference, hx, hy]
    refine ⟨?_, ?_⟩
    · simp [sqrt_to_int]
    · simp

/-- The tie `(3, -3)` goes right, the tie `(-2, 2)` goes left, and equal points
give left. -/
theorem dir_from_vec2_tie_break_witness :
    (dir_from_vec2 ⟨0, 0⟩ ⟨3, -3⟩ = some DIR_RIGHT ∧
      dir_from_vec2 ⟨5, 1⟩ ⟨3, 3⟩ = some DIR_LEFT) ∧
    (sqrt_to_int (((1 : ℚ) - 1) * ((1 : ℚ) - 1) + ((1 : ℚ) - 1) * ((1 : ℚ) - 1)) = some 0 ∧
      dir_from_vec2 ⟨1, 1⟩ ⟨1, 1⟩ = some DIR_LEFT) := by
  have h1 := (dir_from_vec2_tie_break ⟨0, 0⟩ ⟨3, -3⟩).1 (by norm_num) (by norm_num) (by norm_num)
    (by norm_num)
  have h2 := (dir_from_vec2_tie_break ⟨5, 1⟩ ⟨3, 3⟩).1 (by norm_num) (by norm_num) (by norm_num)
    (by norm_num)
  have h3 := (dir_from_vec2_tie_break ⟨1, 1⟩ ⟨1, 1⟩).2 (by norm_num) (by norm_num)
  norm_num at h1 h2
  exact ⟨⟨h1, h2⟩, h3⟩

/-! ## Facts about the input translator -/

theorem input_run_length (fw fh : Int) (ms : List MouseSample) :
    ∀ s, (input_run fw fh s ms).length = ms.length := by
  induction ms with
  | nil => intro s; rfl
  | cons m ms ih => intro s; simp only [input_run, List.length_cons, ih]

/-- A frame with the button held, after a frame with the button held. -/
theorem input_step_held (fw fh : Int) (s : InputState) (m : MouseSample)
    (hm : button_down m.mouse_state = true) (hs : button_down s.mouse_last_state = true) :
    input_step fw fh s m =
      if s.allow_slide && vec2_distance_gt s.mouse_click_pos m.mouse_pos 60 then
        ({ mouse_last_state := m.mouse_state, mouse_click_pos := s.mouse_click_pos,
           allow_slide := false },
         FrameAction.slide (slide_call fw fh s.mouse_click_pos m.mouse_pos))
      else
        ({ s with mouse_last_state := m.mouse_state }, FrameAction.no_slide) := by
  unfold input_step
  simp only [hm, hs, if_true, Bool.not_true, Bool.false_eq_true, if_false]

/-- Once the flag is cleared and while the button stays down, no frame calls
`board_slide_piece`. -/
theorem run_disarmed (fw fh : Int) (ms : List MouseSample) :
    ∀ s, button_down s.mouse_last_state = true → s.allow_slide = false →
      (∀ m ∈ ms, button_down m.mouse_state = true) →
      ∀ (k : Nat) (act : FrameAction),
        (input_run fw fh s ms)[k]? = some act → act.invoked = false := by
  induction ms with
  | nil => intro s _ _ _ k act h; simp [input_run] at h
  | cons m ms ih =>
    intro s hs ha hd k act h
    have hm := hd m (List.mem_cons_self _ _)
    have hstep := input_step_held fw fh s m hm hs
    rw [ha] at hstep
    simp only [Bool.false_and, Bool.false_eq_true, if_false] at hstep
    simp only [input_run, hstep] at h
    cases k with
    | zero =>
      simp only [List.getElem?_cons_zero, Option.some.injEq] at h
      rw [← h]; rfl
    | succ k =>
      simp only [List.getElem?_cons_succ] at h
      exact ih _ hm rfl (fun m' hm' => hd m' (List.mem_cons_of_mem _ hm')) k act h

/-- While the flag is set and the button stays down, the frame that calls
`board_slide_piece` is the first one whose pointer is beyond the threshold. -/
theorem run_armed (fw fh : Int) (anchor : Vec2) (ms : List MouseSample) :
    ∀ s, button_down s.mouse_last_state = true → s.allow_slide = true →
      s.mouse_click_pos = anchor →
      (∀ m ∈ ms, button_down m.mouse_state = true) →
      ∀ (k : Nat) (m : MouseSample), ms[k]? = some m →
        ∃ act : FrameAction, (input_run fw fh s ms)[k]? = some act ∧
          (act.invoked = true ↔
            (vec2_distance_gt anchor m.mouse_pos 60 = true ∧
              ∀ (j : Nat) (mj : MouseSample), j < k → ms[j]? = some mj →
                vec2_distance_gt anchor mj.mouse_pos 60 = false)) := by
  induction ms with
  | nil => intro s _ _ _ _ k m h; simp at h
  | cons m0 ms ih =>
    intro s hs ha hc hd k m h
    have hm0 := hd m0 (List.mem_cons_self _ _)
    have hd' : ∀ m' ∈ ms, button_down m'.mouse_state = true :=
      fun m' hm' => hd m' (List.mem_cons_of_mem _ hm')
    have hstep := input_step_held fw fh s m0 hm0 hs
    rw [ha, hc] at hstep
    simp only [Bool.true_and] at hstep
    by_cases hfar : vec2_distance_gt anchor m0.mouse_pos 60 = true
    · rw [if_pos hfar] at hstep
      cases k with
      | zero =>
        simp only [List.getElem?_cons_zero, Option.some.injEq] at h
        subst h
        refine ⟨(input_step fw fh s m0).2, by simp only [input_run, List.getElem?_cons_zero], ?_⟩
        rw [hstep]
        simp only [FrameAction.invoked, true_iff]
        exact ⟨hfar, fun j mj hj => absurd hj (Nat.not_lt_zero j)⟩
      | succ k =>
        simp only [List.getElem?_cons_succ] at h
        have hlen : k < (input_run fw fh
            { mouse_last_state := m0.mouse_state, mouse_click_pos := anchor,
              allow_slide := false } ms).length := by
          rw [input_run_length]
          exact (List.getElem?_eq_some.mp h).1
        refine ⟨_, by
          simp only [input_run, hstep, List.getElem?_cons_succ]
          exact List.getElem?_eq_getElem hlen, ?_⟩
        have hno := run_disarmed fw fh ms _ hm0 rfl hd' k _ (List.getElem?_eq_getElem hlen)
        rw [hno]
        constructor
        · intro hcontra; exact absurd hcontra (by decide)
        · intro hr
          have := hr.2 0 m0 (Nat.succ_pos k) (by simp)
          rw [hfar] at this
          exact absurd this (by decide)
    · rw [if_neg hfar] at hstep
      have hfar' : vec2_distance_gt anchor m0.mouse_pos 60 = false := by
        simpa using hfar
      cases k with
      | zero =>
        simp only [List.getElem?_cons_zero, Option.some.injEq] at h
        subst h
        refine ⟨(input_step fw fh s m0).2, by simp only [input_run, List.getElem?_cons_zero], ?_⟩
        rw [hstep]
        simp only [FrameAction.invoked, hfar', Bool.false_eq_true, false_and]
      | succ k =>
        simp only [List.getElem?_cons_succ] at h
        obtain ⟨act, hact, hiff⟩ := ih
          { mouse_last_state := m0.mouse_state, mouse_click_pos := anchor, allow_slide := true }
          hm0 rfl rfl hd' k m h
        refine ⟨act, by simp only [input_run, hstep, List.getElem?_cons_succ]; exact hact, ?_⟩
        rw [hiff]
        constructor
        · rintro ⟨h1, h2⟩
          refine ⟨h1, fun j mj hj hmj => ?_⟩
          cases j with
          | zero =>
            simp only [List.getElem?_cons_zero, Option.some.injEq] at hmj
            subst hmj; exact hfar'
          | succ j =>
            simp only [List.getElem?_cons_succ] at hmj
            exact h2 j mj (Nat.lt_of_succ_lt_succ hj) hmj
        · rintro ⟨h1, h2⟩
          exact ⟨h1, fun j mj hj hmj => h2 (j + 1) mj (Nat.succ_lt_succ hj) (by simpa using hmj)⟩

theorem gt_iff_beyond (a p : Vec2) :
    vec2_distance_gt a p 60 = true ↔ beyond_threshold a p := by
  rw [vec2_distance_gt_iff a p 60 (by norm_num)]
  unfold beyond_threshold
  norm_num

theorem not_gt_self (a : Vec2) : vec2_distance_gt a a 60 = false := by
  unfold vec2_distance_gt vec2_distance_sq
  simp

/-- The frame in which the button goes down: the flag is set, the anchor is the
pointer position, and nothing is called. -/
theorem input_step_press (fw fh : Int) (s : InputState) (m : MouseSample)
    (hm : button_down m.mouse_state = true) (hs : button_down s.mouse_last_state = false) :
    input_step fw fh s m =
      ({ mouse_last_state := m.mouse_state, mouse_click_pos := m.mouse_pos,
         allow_slide := true }, FrameAction.no_slide) := by
  unfold input_step
  simp only [hm, hs, if_true, Bool.not_false, not_gt_self, Bool.and_false, Bool.false_eq_true,
    if_false]

/-- The frames of a drag: the button goes down in the first frame and stays
down; the only frame that calls `board_slide_piece` is the first one whose
pointer is beyond the threshold. -/
theorem drag_actions (fw fh : Int) (s : InputState) (m0 : MouseSample)
    (rest : List MouseSample) (hup : button_down s.mouse_last_state = false)
    (hdown : ∀ m ∈ m0 :: rest, button_down m.mouse_state = true) :
    ∀ (k : Nat) (m : MouseSample), (m0 :: rest)[k]? = some m →
      ∃ act : FrameAction, (input_run fw fh s (m0 :: rest))[k]? = some act ∧
        (act.invoked = true ↔
          (beyond_threshold m0.mouse_pos m.mouse_pos ∧
            ∀ (j : Nat) (mj : MouseSample), j < k → (m0 :: rest)[j]? = some mj →
              ¬ beyond_threshold m0.mouse_pos mj.mouse_pos)) := by
  intro k m h
  have hm0 := hdown m0 (List.mem_cons_self _ _)
  have hd' : ∀ m' ∈ rest, button_down m'.mouse_state = true :=
    fun m' hm' => hdown m' (List.mem_cons_of_mem _ hm')
  have hstep := input_step_press fw fh s m0 hm0 hup
  have hself : ¬ beyond_threshold m0.mouse_pos m0.mouse_pos := by
    rw [← gt_iff_beyond, not_gt_self]; decide
  cases k with
  | zero =>
    simp only [List.getElem?_cons_zero, Option.some.injEq] at h
    subst h
    refine ⟨(input_step fw fh s m0).2, by simp only [input_run, List.getElem?_cons_zero], ?_⟩
    rw [hstep]
    simp only [FrameAction.invoked, Bool.false_eq_true, false_iff, not_and]
    intro hcontra
    exact absurd hcontra hself
  | succ k =>
    simp only [List.getElem?_cons_succ] at h
    obtain ⟨act, hact, hiff⟩ := run_armed fw fh m0.mouse_pos rest
      { mouse_last_state := m0.mouse_state, mouse_click_pos := m0.mouse_pos, allow_slide := true }
      hm0 rfl rfl hd' k m h
    refine ⟨act, by simp only [input_run, hstep, List.getElem?_cons_succ]; exact hact, ?_⟩
    rw [hiff, gt_iff_beyond]
    constructor
    · rintro ⟨h1, h2⟩
      refine ⟨h1, fun j mj hj hmj => ?_⟩
      cases j with
      | zero =>
        simp only [List.getElem?_cons_zero, Option.some.injEq] at hmj
        subst hmj; exact hself
      | succ j =>
        simp only [List.getElem?_cons_succ] at hmj
        have := h2 j mj (Nat.lt_of_succ_lt_succ hj) hmj
        rw [← gt_iff_beyond, this]; decide
    · rintro ⟨h1, h2⟩
      refine ⟨h1, fun j mj hj hmj => ?_⟩
      have := h2 (j + 1) mj (Nat.succ_lt_succ hj) (by simpa using hmj)
      rw [← gt_iff_beyond] at this
      simpa using this

/-! ## Claim about the debounce -/

/-- C9: for every frame sequence in which the button goes from up to down in
the first frame and stays down in all later frames, frame `k` invokes
`board_slide_piece` exactly when it is the first frame whose pointer is at a
distance strictly greater than 60 from the anchor (the pointer position of the
first frame); hence at most one frame invokes it, a distance of exactly 60
does not, and no later frame does, wherever the pointer goes. -/
theorem debounce_single_slide (fw fh : Int) (s : InputState) (m0 : MouseSample)
    (rest : List MouseSample) (hup : button_down s.mouse_last_state = false)
    (hdown : ∀ m ∈ m0 :: rest, button_down m.mouse_state = true) :
    (∀ (k : Nat) (m : MouseSample), (m0 :: rest)[k]? = some m →
      ∃ act : FrameAction, (input_run fw fh s (m0 :: rest))[k]? = some act ∧
        (act.invoked = true ↔
          (beyond_threshold m0.mouse_pos m.mouse_pos ∧
            ∀ (j : Nat) (mj : MouseSample), j < k → (m0 :: rest)[j]? = some mj →
              ¬ beyond_threshold m0.mouse_pos mj.mouse_pos))) ∧
    (∀ (k1 k2 : Nat) (a1 a2 : FrameAction),
      (input_run fw fh s (m0 :: rest))[k1]? = some a1 →
      (input_run fw fh s (m0 :: rest))[k2]? = some a2 →
      a1.invoked = true → a2.invoked = true → k1 = k2) := by
  have main := drag_actions fw fh s m0 rest hup hdown
  refine ⟨main, ?_⟩
  have key : ∀ (k : Nat) (a : FrameAction),
      (input_run fw fh s (m0 :: rest))[k]? = some a → a.invoked = true →
      ∃ m, (m0 :: rest)[k]? = some m ∧ beyond_threshold m0.mouse_pos m.mouse_pos ∧
        ∀ (j : Nat) (mj : MouseSample), j < k → (m0 :: rest)[j]? = some mj →
          ¬ beyond_threshold m0.mouse_pos mj.mouse_pos := by
    intro k a ha hinv
    have hk : k < (m0 :: rest).length := by
      rw [← input_run_length fw fh (m0 :: rest) s]
      exact (List.getElem?_eq_some.mp ha).1
    obtain ⟨act, hact, hiff⟩ := main k _ (List.getElem?_eq_getElem hk)
    rw [ha] at hact
    obtain rfl : a = act := Option.some.inj hact
    exact ⟨_, List.getElem?_eq_getElem hk, hiff.mp hinv⟩
  intro k1 k2 a1 a2 h1 h2 i1 i2
  obtain ⟨m1, e1, f1, n1⟩ := key k1 a1 h1 i1
  obtain ⟨m2, e2, f2, n2⟩ := key k2 a2 h2 i2
  rcases Nat.lt_trichotomy k1 k2 with hlt | heq | hgt
  · exact absurd f1 (n2 k1 m1 hlt e1)
  · exact heq
  · exact absurd f2 (n1 k2 m2 hgt e2)

/-- The drag `drag_frames`: the pointer is at distance 0, 60, 61, 0 and 100
from the anchor with the button held; only the third frame calls
`board_slide_piece`. -/
theorem debounce_single_slide_witness :
    (button_down initial_input.mouse_last_state = false ∧
      ∀ m ∈ (⟨1, 100, 100⟩ : MouseSample) ::
        [⟨1, 160, 100⟩, ⟨1, 161, 100⟩, ⟨1, 100, 100⟩, ⟨1, 200, 100⟩],
        button_down m.mouse_state = true) ∧
    ((∀ (k : Nat) (m : MouseSample),
      ((⟨1, 100, 100⟩ : MouseSample) ::
        [⟨1, 160, 100⟩, ⟨1, 161, 100⟩, ⟨1, 100, 100⟩, ⟨1, 200, 100⟩])[k]? = some m →
      ∃ act : FrameAction, (input_run 200 200 initial_input ((⟨1, 100, 100⟩ : MouseSample) ::
        [⟨1, 160, 100⟩, ⟨1, 161, 100⟩, ⟨1, 100, 100⟩, ⟨1, 200, 100⟩]))[k]? = some act ∧
        (act.invoked = true ↔
          (beyond_threshold (⟨1, 100, 100⟩ : MouseSample).mouse_pos m.mouse_pos ∧
            ∀ (j : Nat) (mj : MouseSample), j < k →
              ((⟨1, 100, 100⟩ : MouseSample) ::
                [⟨1, 160, 100⟩, ⟨1, 161, 100⟩, ⟨1, 100, 100⟩, ⟨1, 200, 100⟩])[j]? = some mj →
              ¬ beyond_threshold (⟨1, 100, 100⟩ : MouseSample).mouse_pos mj.mouse_pos))) ∧
    (∀ (k1 k2 : Nat) (a1 a2 : FrameAction),
      (input_run 200 200 initial_input ((⟨1, 100, 100⟩ : MouseSample) ::
        [⟨1, 160, 100⟩, ⟨1, 161, 100⟩, ⟨1, 100, 100⟩, ⟨1, 200, 100⟩]))[k1]? = some a1 →
      (input_run 200 200 initial_input ((⟨1, 100, 100⟩ : MouseSample) ::
        [⟨1, 160, 100⟩, ⟨1, 161, 100⟩, ⟨1, 100, 100⟩, ⟨1, 200, 100⟩]))[k2]? = some a2 →
      a1.invoked = true → a2.invoked = true → k1 = k2)) ∧
    (input_run 200 200 initial_input drag_frames).map FrameAction.invoked =
      [false, false, true, false, false] :=
  ⟨⟨by decide, by decide⟩,
   debounce_single_slide 200 200 initial_input ⟨1, 100, 100⟩
     [⟨1, 160, 100⟩, ⟨1, 161, 100⟩, ⟨1, 100, 100⟩, ⟨1, 200, 100⟩] (by decide) (by decide),
   by
     simp [input_run, input_step, drag_frames, initial_input, button_down, vec2_distance_gt,
       vec2_distance_sq, MouseSample.mouse_pos, FrameAction.invoked]
     norm_num⟩

/-! ## Facts about the renderer -/

theorem to_int_small (v : Int) (h0 : 0 ≤ v) (h1 : v < 2147483648) : to_int v = v := by
  unfold to_int
  have h : v % 4294967296 = v := by omega
  simp only [h]
  rw [if_pos h1]

theorem size_t_mul_int_small (a : Nat) (w : Int) (ha : a < 4) (h0 : 0 ≤ w)
    (h1 : w < 536870912) : size_t_mul_int a w = a * w := by
  unfold size_t_mul_int
  have e1 : w % 18446744073709551616 = w := by omega
  rw [e1]
  have e2 : ((a : Int) * w) % 18446744073709551616 = (a : Int) * w := by
    apply Int.emod_eq_of_lt
    · exact Int.mul_nonneg (Int.natCast_nonneg a) h0
    · interval_cases a <;> omega
  rw [e2]
  apply to_int_small
  · exact Int.mul_nonneg (Int.natCast_nonneg a) h0
  · interval_cases a <;> omega

theorem field_size_bounds (d : Int) (h0 : 0 ≤ d) (h1 : d < 2147483648) :
    0 ≤ field_size d ∧ field_size d < 536870912 := by
  unfold field_size
  rw [Int.tdiv_eq_ediv h0 (by decide)]
  simp only [CELLS_DIM, Nat.cast_ofNat]
  omega

/-- An up-counting loop whose body appends `g v` to the output appends the
`g v` of all its iterations, in order. -/
theorem for_up_append {β : Type} (body : Nat → List β → Access (List β)) (g : Nat → List β) :
    ∀ (cnt start : Nat) (out : List β),
      (∀ v o, start ≤ v → v < start + cnt → (body v o).val = some (o ++ g v)) →
      (for_up body start cnt out).val = some (out ++ (List.range' start cnt).flatMap g) := by
  intro cnt
  induction cnt with
  | zero => intro start out _; simp [for_up]
  | succ c ih =>
    intro start out h
    have h1 := h start out (Nat.le_refl _) (by omega)
    have h2 := ih (start + 1) (out ++ g start) (fun v o hv hlt => h v o (by omega) (by omega))
    simp only [for_up, Access.val_bind, h1, Option.some_bind, h2, List.range'_succ,
      List.flatMap_cons, List.append_assoc]

theorem render_cell_val (b : Board) (fw fh : Int) (x y : Nat)
    (out : List (SDL_Rect × SDL_Rect)) (hb : b.well_formed)
    (hw : 0 ≤ fw ∧ fw < 536870912) (hh : 0 ≤ fh ∧ fh < 536870912)
    (hx : x < 4) (hy : y < 4) :
    (render_cell b fw fh y x out).val = some (out ++ expected_tile b fw fh x y) := by
  have hk : y * 4 + x < b.cells.length := by rw [b.size_eq]; simp only [CELLS_DIM]; omega
  have hget : b.cells[y * 4 + x]? = some b.cells[y * 4 + x] := List.getElem?_eq_getElem hk
  have hmem : b.cells[y * 4 + x] ∈ b.cells := List.getElem_mem _
  generalize b.cells[y * 4 + x] = p at hget hmem
  unfold render_cell expected_tile
  rw [Access.val_bind, rd_val, cells_get_nat b y x (by omega), b.cell_in x y hx hy, hget,
    Option.some_bind]
  by_cases hp : p = POINT_EMPTY
  · subst hp
    simp only [point_eq_self, if_true, Access.val_pure, List.append_nil]
  · have h1 : point_eq p POINT_EMPTY = false := by
      rw [← Bool.not_eq_true, point_eq_iff]; exact hp
    have hin : p.in_grid := (hb p hmem).resolve_left hp
    simp only [h1, Bool.false_eq_true, if_false, hp, Access.val_pure]
    rw [size_t_mul_int_small p.x fw hin.1 hw.1 hw.2, size_t_mul_int_small p.y fh hin.2 hh.1 hh.2,
      size_t_mul_int_small x fw hx hw.1 hw.2, size_t_mul_int_small y fh hy hh.1 hh.2]

theorem render_tiles_val (b : Board) (fw fh : Int) (hb : b.well_formed)
    (hw : 0 ≤ fw ∧ fw < 536870912) (hh : 0 ≤ fh ∧ fh < 536870912) :
    (render_tiles b fw fh).val = some (expected_blits b fw fh) := by
  unfold render_tiles expected_blits
  rw [for_up_append _
    (fun y => (List.range CELLS_DIM).flatMap (fun x => expected_tile b fw fh x y))]
  · rw [List.nil_append, List.range_eq_range']
  · intro y o _ hy
    rw [List.range_eq_range']
    apply for_up_append
    intro x o' _ hx
    simp only [CELLS_DIM] at hx hy
    exact render_cell_val b fw fh x y o' hb hw hh (by omega) (by omega)

/-! ## Claim about the tile rectangles -/

/-- C10: with `field_width = image_width / N` and `field_height = image_height / N`
(image dimensions are non-negative `int`s) and a board whose cells hold the
sentinel or grid coordinates, the renderer issues, row by row, for every grid
cell `(x, y)` whose point `p` is not the sentinel exactly one blit, with source
rectangle `{p.x * field_width, p.y * field_height, field_width, field_height}`
and destination rectangle `{x * field_width, y * field_height, field_width,
field_height}`, and no blit for a sentinel cell. -/
theorem render_tiles_rectangles (b : Board) (image_width image_height : Int)
    (hb : b.well_formed)
    (hw : 0 ≤ image_width ∧ image_width < 2147483648)
    (hh : 0 ≤ image_height ∧ image_height < 2147483648) :
    (render_tiles b (field_size image_width) (field_size image_height)).val =
      some ((List.range CELLS_DIM).flatMap (fun y => (List.range CELLS_DIM).flatMap (fun x =>
        expected_tile b (field_size image_width) (field_size image_height) x y))) ∧
    field_size image_width = image_width / 4 ∧ field_size image_height = image_height / 4 ∧
    ∀ (x y : Nat) (p : Point), b.cell x y = some p →
      expected_tile b (field_size image_width) (field_size image_height) x y =
        if p = POINT_EMPTY then []
        else [(⟨p.x * field_size image_width, p.y * field_size image_height,
                field_size image_width, field_size image_height⟩,
               ⟨x * field_size image_width, y * field_size image_height,
                field_size image_width, field_size image_height⟩)] := by
  refine ⟨render_tiles_val b _ _ hb (field_size_bounds _ hw.1 hw.2)
    (field_size_bounds _ hh.1 hh.2), ?_, ?_, ?_⟩
  · exact Int.tdiv_eq_ediv hw.1 (by decide)
  · exact Int.tdiv_eq_ediv hh.1 (by decide)
  · intro x y p hp
    unfold expected_tile
    rw [hp]

/-- The scenario of the specification: an 800 x 800 image gives 200 x 200
tiles, and the tile at grid `(2, 1)` of the solved board is drawn at
`{x: 400, y: 200, w: 200, h: 200}`. -/
theorem render_tiles_rectangles_witness :
    (solved_board.well_formed ∧ ((0 : Int) ≤ 800 ∧ (800 : Int) < 2147483648)) ∧
    ((render_tiles solved_board (field_size 800) (field_size 800)).val =
      some ((List.range CELLS_DIM).flatMap (fun y => (List.range CELLS_DIM).flatMap (fun x =>
        expected_tile solved_board (field_size 800) (field_size 800) x y))) ∧
    field_size 800 = 800 / 4 ∧ field_size 800 = 800 / 4 ∧
    ∀ (x y : Nat) (p : Point), solved_board.cell x y = some p →
      expected_tile solved_board (field_size 800) (field_size 800) x y =
        if p = POINT_EMPTY then []
        else [(⟨p.x * field_size 800, p.y * field_size 800, field_size 800, field_size 800⟩,
               ⟨x * field_size 800, y * field_size 800, field_size 800, field_size 800⟩)]) ∧
    field_size 800 = 200 ∧
    expected_tile solved_board (field_size 800) (field_size 800) 2 1 =
      [(⟨400, 200, 200, 200⟩, ⟨400, 200, 200, 200⟩)] ∧
    expected_tile solved_board (field_size 800) (field_size 800) 0 0 = [] :=
  ⟨⟨by decide, by decide⟩,
   render_tiles_rectangles solved_board 800 800 (by decide) (by decide) (by decide),
   by decide, by decide, by decide⟩

/-! ## Slide round trip -/

theorem neighbour_opposite (x y nx ny : Nat) (dir : Direction) (hx : x < 4) (hy : y < 4)
    (hn : neighbour x y dir = some (nx, ny)) :
    neighbour nx ny (opposite dir) = some (x, y) := by
  cases dir <;> simp only [neighbour, CELLS_DIM] at hn <;> split at hn <;>
    simp only [Option.some.injEq, Prod.mk.injEq, reduceCtorEq] at hn <;>
    obtain ⟨h1, h2⟩ := hn <;> subst h1 <;> subst h2 <;>
    simp only [opposite, neighbour, CELLS_DIM]
  · rw [if_pos (by omega)]; congr 2; omega
  · rw [if_pos (by omega)]; rfl
  · rw [if_pos (by omega)]; congr 2; omega
  · rw [if_pos (by omega)]; rfl

theorem Board.ext_cells (a b : Board) (h : a.cells = b.cells) : a = b := by
  cases a; cases b; simp only at h; subst h; rfl

/-- C15: for every board (so also for every board with exactly one sentinel),
every `(x, y)` in range and every `dir` whose neighbour `(nx, ny)` is inside
the grid and holds the sentinel, `board_slide_piece(x, y, dir)` followed by
`board_slide_piece(nx, ny, opposite(dir))` returns exactly the original board. -/
theorem slide_round_trip (b : Board) (x y nx ny : Nat) (dir : Direction)
    (hx : x < CELLS_DIM) (hy : y < CELLS_DIM) (hn : neighbour x y dir = some (nx, ny))
    (he : b.cell nx ny = some POINT_EMPTY) :
    (board_slide_piece b x y dir).bind (fun b1 => board_slide_piece b1 nx ny (opposite dir)) =
      some b := by
  obtain ⟨hnx, hny, -⟩ := slide_trace_neighbour b x y nx ny dir hx hy hn
  obtain ⟨b1, t, hv1, ht, hc1⟩ := slide_legal b x y nx ny dir hx hy hn he
  have hne := neighbour_ne x y nx ny dir hn
  have hkne : ny * 4 + nx ≠ y * 4 + x := by
    intro e
    apply hne
    simp only [Prod.mk.injEq]
    simp only [CELLS_DIM] at hx
    omega
  have hk1 : y * 4 + x < b.cells.length := by rw [b.size_eq]; simp only [CELLS_DIM] at *; omega
  have hk2 : ny * 4 + nx < b.cells.length := by rw [b.size_eq]; simp only [CELLS_DIM] at *; omega
  have he' : b.cells[ny * 4 + nx]? = some POINT_EMPTY := by
    rw [← b.cell_in nx ny hnx hny]; exact he
  have he1 : b1.cell x y = some POINT_EMPTY := by
    rw [b1.cell_in x y hx hy, hc1, List.getElem?_set_ne hkne, List.getElem?_set_self hk1]
  obtain ⟨b2, t2, hv2, ht2, hc2⟩ := slide_legal b1 nx ny x y (opposite dir) hnx hny
    (neighbour_opposite x y nx ny dir hx hy hn) he1
  rw [hc1, List.getElem?_set_self (by simpa using hk2)] at ht2
  obtain rfl : t = t2 := Option.some.inj ht2
  rw [hv1, Option.some_bind, hv2]
  congr 1
  apply Board.ext_cells
  rw [hc2, hc1]
  apply List.ext_getElem?
  intro n
  by_cases h1 : y * 4 + x = n
  · subst h1
    rw [List.getElem?_set_self (by simpa using hk1), ht]
  · rw [List.getElem?_set_ne h1]
    by_cases h2 : ny * 4 + nx = n
    · subst h2
      rw [List.getElem?_set_self (by simpa using hk2), he']
    · rw [List.getElem?_set_ne h2, List.getElem?_set_ne h2, List.getElem?_set_ne h1]

/-- On the solved board the tile `(1, 0)` moves left into `(0, 0)` and back. -/
theorem slide_round_trip_witness :
    (neighbour 1 0 DIR_LEFT = some (0, 0) ∧ solved_board.cell 0 0 = some POINT_EMPTY) ∧
    (board_slide_piece solved_board 1 0 DIR_LEFT).bind
      (fun b1 => board_slide_piece b1 0 0 (opposite DIR_LEFT)) = some solved_board ∧
    board_slide_piece solved_board_after 0 0 DIR_RIGHT = some solved_board :=
  ⟨⟨by decide, by decide⟩,
   slide_round_trip solved_board 1 0 0 0 DIR_LEFT (by decide) (by decide) (by decide)
     (by decide),
   by decide⟩

/-! ## Re-arming of the input translator -/

/-- A frame with the button up: nothing is called, only `mouse_last_state` is
updated. -/
theorem input_step_up (fw fh : Int) (s : InputState) (m : MouseSample)
    (hm : button_down m.mouse_state = false) :
    input_step fw fh s m = ({ s with mouse_last_state := m.mouse_state }, FrameAction.no_slide) := by
  unfold input_step
  simp only [hm, Bool.false_eq_true, if_false]

/-- Frames with the button up call nothing. -/
theorem run_released (fw fh : Int) (tail : List MouseSample) (ups : List MouseSample) :
    ∀ s, (∀ m ∈ ups, button_down m.mouse_state = false) →
      input_run fw fh s (ups ++ tail) =
        List.replicate ups.length FrameAction.no_slide ++
          input_run fw fh
            (ups.foldl (fun t m => { t with mouse_last_state := m.mouse_state }) s) tail := by
  induction ups with
  | nil => intro s _; rfl
  | cons m ups ih =>
    intro s hup
    have hstep := input_step_up fw fh s m (hup m (List.mem_cons_self _ _))
    have hrest := ih { s with mouse_last_state := m.mouse_state }
      (fun m' hm' => hup m' (List.mem_cons_of_mem _ hm'))
    show input_run fw fh s (m :: (ups ++ tail)) = _
    simp only [input_run, hstep, List.length_cons, List.replicate_succ, List.foldl_cons,
      List.cons_append]
    rw [hrest]

/-- Frames with the button up keep the anchor and the flag, and leave the
button recorded as up. -/
theorem released_state (ups : List MouseSample) :
    ∀ s : InputState, (∀ m ∈ ups, button_down m.mouse_state = false) →
      ((ups.foldl (fun t m => { t with mouse_last_state := m.mouse_state }) s).mouse_click_pos =
          s.mouse_click_pos ∧
        (ups.foldl (fun t m => { t with mouse_last_state := m.mouse_state }) s).allow_slide =
          s.allow_slide) ∧
      (ups ≠ [] → button_down
        (ups.foldl (fun t m => { t with mouse_last_state := m.mouse_state }) s).mouse_last_state =
          false) := by
  induction ups with
  | nil => intro s _; exact ⟨⟨rfl, rfl⟩, fun h => absurd rfl h⟩
  | cons m ups ih =>
    intro s hup
    have hm := hup m (List.mem_cons_self _ _)
    obtain ⟨⟨hc, ha⟩, hl⟩ := ih { s with mouse_last_state := m.mouse_state }
      (fun m' hm' => hup m' (List.mem_cons_of_mem _ hm'))
    refine ⟨⟨hc, ha⟩, fun _ => ?_⟩
    by_cases hnil : ups = []
    · subst hnil; exact hm
    · exact hl hnil

/-- C14: in the per-frame input step, (1) when the previous frame's button
state is up and the current one is down, the allow flag becomes true and the
anchor becomes the current pointer position, whatever they were, and the
threshold test of that frame, made from the new anchor, calls nothing; (2) in a
frame where the button is up nothing is called and anchor and flag are
unchanged; (3) hence, from any state (in particular after a slide has fired),
releasing the button for one or more frames and pressing again gives a drag in
which nothing is called during the release and exactly the first frame beyond
the threshold, measured from the new anchor, calls `board_slide_piece`. -/
theorem rearm_on_press (fw fh : Int) (s : InputState) :
    (∀ m : MouseSample, button_down s.mouse_last_state = false →
      button_down m.mouse_state = true →
      input_step fw fh s m =
        ({ mouse_last_state := m.mouse_state, mouse_click_pos := m.mouse_pos,
           allow_slide := true }, FrameAction.no_slide)) ∧
    (∀ m : MouseSample, button_down m.mouse_state = false →
      (input_step fw fh s m).2 = FrameAction.no_slide ∧
      (input_step fw fh s m).1.mouse_click_pos = s.mouse_click_pos ∧
      (input_step fw fh s m).1.allow_slide = s.allow_slide) ∧
    (∀ (ups : List MouseSample) (m0 : MouseSample) (rest : List MouseSample),
      ups ≠ [] → (∀ m ∈ ups, button_down m.mouse_state = false) →
      (∀ m ∈ m0 :: rest, button_down m.mouse_state = true) →
      (∀ (k : Nat) (act : FrameAction), k < ups.length →
        (input_run fw fh s (ups ++ m0 :: rest))[k]? = some act → act.invoked = false) ∧
      (∀ (k : Nat) (m : MouseSample), (m0 :: rest)[k]? = some m →
        ∃ act : FrameAction,
          (input_run fw fh s (ups ++ m0 :: rest))[ups.length + k]? = some act ∧
          (act.invoked = true ↔
            (beyond_threshold m0.mouse_pos m.mouse_pos ∧
              ∀ (j : Nat) (mj : MouseSample), j < k → (m0 :: rest)[j]? = some mj →
                ¬ beyond_threshold m0.mouse_pos mj.mouse_pos)))) := by
  refine ⟨fun m hs hm => input_step_press fw fh s m hm hs, fun m hm => ?_, ?_⟩
  · rw [input_step_up fw fh s m hm]
    exact ⟨rfl, rfl, rfl⟩
  · intro ups m0 rest hne hup hdown
    have hrun := run_released fw fh (m0 :: rest) ups s hup
    have hlast := (released_state ups s hup).2 hne
    constructor
    · intro k act hk hact
      rw [hrun, List.getElem?_append_left (by simpa using hk)] at hact
      rw [List.getElem?_replicate, if_pos hk] at hact
      rw [← Option.some.inj hact]
      rfl
    · intro k m hm
      obtain ⟨act, hact, hiff⟩ := drag_actions fw fh _ m0 rest hlast hdown k m hm
      refine ⟨act, ?_, hiff⟩
      rw [hrun, List.getElem?_append_right (by simp)]
      simpa using hact

/-- After a slide has fired, one released frame and a new press at `(300, 100)`
re-arm the translator: the second frame of the new drag, at distance 61 from the
new anchor, calls `board_slide_piece`, and no other frame does. -/
theorem rearm_on_press_witness :
    ((release_frames ≠ [] ∧ ∀ m ∈ release_frames, button_down m.mouse_state = false) ∧
      ∀ m ∈ (⟨1, 300, 100⟩ : MouseSample) :: press_frames, button_down m.mouse_state = true) ∧
    ((∀ (k : Nat) (act : FrameAction), k < release_frames.length →
        (input_run 200 200 fired_input (release_frames ++ ⟨1, 300, 100⟩ :: press_frames))[k]? =
          some act → act.invoked = false) ∧
      (∀ (k : Nat) (m : MouseSample), ((⟨1, 300, 100⟩ : MouseSample) :: press_frames)[k]? = some m →
        ∃ act : FrameAction,
          (input_run 200 200 fired_input
            (release_frames ++ ⟨1, 300, 100⟩ :: press_frames))[release_frames.length + k]? =
              some act ∧
          (act.invoked = true ↔
            (beyond_threshold (⟨1, 300, 100⟩ : MouseSample).mouse_pos m.mouse_pos ∧
              ∀ (j : Nat) (mj : MouseSample), j < k →
                ((⟨1, 300, 100⟩ : MouseSample) :: press_frames)[j]? = some mj →
                ¬ beyond_threshold (⟨1, 300, 100⟩ : MouseSample).mouse_pos mj.mouse_pos)))) ∧
    (input_run 200 200 fired_input (release_frames ++ ⟨1, 300, 100⟩ :: press_frames)).map
      FrameAction.invoked = [false, false, true, false] :=
  ⟨⟨⟨by decide, by decide⟩, by decide⟩,
   (rearm_on_press 200 200 fired_input).2.2 release_frames ⟨1, 300, 100⟩ press_frames
     (by decide) (by decide) (by decide),
   by
     simp [input_run, input_step, release_frames, press_frames, fired_input, button_down,
       vec2_distance_gt, vec2_distance_sq, MouseSample.mouse_pos, FrameAction.invoked]
     norm_num⟩

/-! ## Grid lines -/

/-- When the tiles are square the lines drawn are the lines of the
specification. -/
theorem grid_lines_square (ww wh fw : Int) (h0 : 0 ≤ fw) (h1 : fw < 536870912) :
    (render_grid_lines ww wh fw fw).val = some (expected_grid_lines ww wh fw fw) := by
  unfold render_grid_lines expected_grid_lines
  rw [for_up_append _ (fun i => [⟨0, i * fw, ww, i * fw⟩, ⟨i * fw, 0, i * fw, wh⟩])]
  · rw [List.nil_append]
  · intro i o h1i hi
    simp only [CELLS_DIM] at hi
    simp only [Access.val_pure]
    rw [size_t_mul_int_small i fw (by omega) h0 h1]

/-- C11 (as the code behaves for an image that is not square): for an
800 x 400 image the tiles are 200 x 100, and the renderer draws its horizontal
lines at heights 200, 400 and 600, the multiples of the tile width, and its
vertical lines at abscissas 100, 200 and 300, the multiples of the tile height;
the tile boundaries are at heights 100, 200, 300 and abscissas 200, 400, 600. -/
theorem grid_lines_not_square :
    field_size 800 = 200 ∧ field_size 400 = 100 ∧
    (render_grid_lines 800 400 (field_size 800) (field_size 400)).val =
      some [⟨0, 200, 800, 200⟩, ⟨100, 0, 100, 400⟩,
            ⟨0, 400, 800, 400⟩, ⟨200, 0, 200, 400⟩,
            ⟨0, 600, 800, 600⟩, ⟨300, 0, 300, 400⟩] ∧
    expected_grid_lines 800 400 (field_size 800) (field_size 400) =
      [⟨0, 100, 800, 100⟩, ⟨200, 0, 200, 400⟩,
       ⟨0, 200, 800, 200⟩, ⟨400, 0, 400, 400⟩,
       ⟨0, 300, 800, 300⟩, ⟨600, 0, 600, 400⟩] ∧
    (render_grid_lines 800 400 (field_size 800) (field_size 400)).val ≠
      some (expected_grid_lines 800 400 (field_size 800) (field_size 400)) := by
  decide

/-! ## The grid cell of the anchor -/

/-- Line 199 (and 200) for a non-negative anchor coordinate `a` and a positive
field size `f`: the cell index is the integer quotient `a / f`. -/
theorem anchor_axis (a f : Int) (ha : 0 ≤ a) (ha2 : a < 18446744073709551616 * f)
    (hf : 0 < f) :
    (div_by_int (a : ℚ) f).bind float_to_size_t = some (a / f).toNat := by
  have hfq : (0 : ℚ) < (f : ℚ) := by exact_mod_cast hf
  have haq : (0 : ℚ) ≤ (a : ℚ) := by exact_mod_cast ha
  have hfl : ⌊(a : ℚ) / (f : ℚ)⌋ = a / f := by
    obtain ⟨d, rfl⟩ := Int.eq_ofNat_of_zero_le (le_of_lt hf)
    exact_mod_cast Rat.floor_intCast_div_natCast a d
  have hq0 : (0 : ℚ) ≤ (a : ℚ) / (f : ℚ) := div_nonneg haq (le_of_lt hfq)
  have hq1 : (a : ℚ) / (f : ℚ) < 18446744073709551616 := by
    rw [div_lt_iff₀ hfq]
    exact_mod_cast ha2
  unfold div_by_int float_to_size_t
  rw [if_neg (ne_of_gt hf), Option.some_bind, if_pos ⟨by linarith, hq1⟩, hfl]

theorem slide_call_eq (fw fh ax ay : Int) (pos : Vec2)
    (hax : 0 ≤ ax ∧ ax < 18446744073709551616 * fw)
    (hay : 0 ≤ ay ∧ ay < 18446744073709551616 * fh) (hfw : 0 < fw) (hfh : 0 < fh)
    (hd : (pos.x - (ax : ℚ)) * (pos.x - (ax : ℚ)) + (pos.y - (ay : ℚ)) * (pos.y - (ay : ℚ)) <
      4611686018427387904) :
    slide_call fw fh ⟨(ax : ℚ), (ay : ℚ)⟩ pos =
      some ⟨(ax / fw).toNat, (ay / fh).toNat,
        dir_reference (pos.x - (ax : ℚ)) (pos.y - (ay : ℚ))⟩ := by
  unfold slide_call
  rw [dir_from_vec2_eq ⟨(ax : ℚ), (ay : ℚ)⟩ pos hd]
  simp only [Option.bind_eq_bind, Option.some_bind, Option.pure_def, anchor_axis ax fw hax.1 hax.2 hfw,
    anchor_axis ay fh hay.1 hay.2 hfh]

/-- C12 (as the code behaves for an image whose width is not divisible by `N`):
in a window of 802 x 800 pixels (both at least `N`) the fields are 200 x 200.
The anchor `(801, 790)` is inside the window, and a drag from it to the left
makes the input translator call `board_slide_piece(&board, 4, 3, DIR_LEFT)`: the
column 4 is not below `N`.  On the board with the sentinel at `(3, 3)` that call
reads `cells[3][3]`, finds the sentinel and then reads `cells[3][4]`, outside
the `Board` object.  From the anchor `(801, 10)` the call is
`board_slide_piece(&board, 4, 0, DIR_LEFT)`, which, with the sentinel at `(3, 0)`,
moves the tile of the first cell of row 1 to the last cell of row 0. -/
theorem anchor_cell_out_of_range :
    (((CELLS_DIM : Nat) : Int) ≤ 802 ∧ ((CELLS_DIM : Nat) : Int) ≤ 800) ∧
    ((0 : Int) ≤ 801 ∧ (801 : Int) < 802) ∧ ((0 : Int) ≤ 790 ∧ (790 : Int) < 800) ∧
    slide_call (field_size 802) (field_size 800) ⟨801, 790⟩ ⟨700, 790⟩ =
      some ⟨4, 3, DIR_LEFT⟩ ∧
    ¬ ((4 : Nat) < CELLS_DIM) ∧
    (board_slide_piece_trace corner_board 4 3 DIR_LEFT).log = [(3, 3), (3, 4)] ∧
    board_slide_piece corner_board 4 3 DIR_LEFT = none ∧
    slide_call (field_size 802) (field_size 800) ⟨801, 10⟩ ⟨700, 10⟩ =
      some ⟨4, 0, DIR_LEFT⟩ ∧
    board_slide_piece wrap_board_after 4 0 DIR_LEFT = some wrap_board := by
  have e1 : field_size 802 = 200 := by decide
  have e2 : field_size 800 = 200 := by decide
  have h := slide_call_eq 200 200 801 790 ⟨700, 790⟩ (by decide) (by decide) (by decide)
    (by decide) (by norm_num)
  have g := slide_call_eq 200 200 801 10 ⟨700, 10⟩ (by decide) (by decide) (by decide)
    (by decide) (by norm_num)
  have e3 : ((801 : Int) / 200).toNat = 4 := by decide
  have e4 : ((790 : Int) / 200).toNat = 3 := by decide
  have e5 : ((10 : Int) / 200).toNat = 0 := by decide
  have e6 : dir_reference ((700 : ℚ) - ((801 : Int) : ℚ)) ((790 : ℚ) - ((790 : Int) : ℚ)) =
      DIR_LEFT := by
    unfold dir_reference
    norm_num
  have e7 : dir_reference ((700 : ℚ) - ((801 : Int) : ℚ)) ((10 : ℚ) - ((10 : Int) : ℚ)) =
      DIR_LEFT := by
    unfold dir_reference
    norm_num
  rw [e3, e4, e6] at h
  rw [e3, e5, e7] at g
  rw [e1, e2]
  refine ⟨by decide, by decide, by decide, ?_, by decide, by decide, by decide, ?_, by decide⟩
  · exact_mod_cast h
  · exact_mod_cast g

/-- Inside the tiled area the anchor is mapped to a cell of the grid: for every
window size (width and height at least `N`), every anchor with
`0 <= ax < N * field_width` and `0 <= ay < N * field_height` and every pointer
position at a distance below `2^31`, the input translator computes the grid
cell `(ax / field_width, ay / field_height)` and both of its indices are in
`[0, N)`.  When a dimension is divisible by `N` the tiled area spans the whole
window in that direction. -/
theorem anchor_cell_in_range (window_width window_height ax ay : Int) (pos : Vec2)
    (hw : ((CELLS_DIM : Nat) : Int) ≤ window_width)
    (hh : ((CELLS_DIM : Nat) : Int) ≤ window_height)
    (hx : 0 ≤ ax ∧ ax < (CELLS_DIM : Nat) * field_size window_width)
    (hy : 0 ≤ ay ∧ ay < (CELLS_DIM : Nat) * field_size window_height)
    (hd : (pos.x - (ax : ℚ)) * (pos.x - (ax : ℚ)) + (pos.y - (ay : ℚ)) * (pos.y - (ay : ℚ)) <
      4611686018427387904) :
    (∃ c : SlideCall,
      slide_call (field_size window_width) (field_size window_height)
        ⟨(ax : ℚ), (ay : ℚ)⟩ pos = some c ∧
      (c.x : Int) = ax / field_size window_width ∧
      (c.y : Int) = ay / field_size window_height ∧
      c.x < CELLS_DIM ∧ c.y < CELLS_DIM) ∧
    ((((CELLS_DIM : Nat) : Int) ∣ window_width →
      (CELLS_DIM : Nat) * field_size window_width = window_width) ∧
     (((CELLS_DIM : Nat) : Int) ∣ window_height →
      (CELLS_DIM : Nat) * field_size window_height = window_height)) := by
  have hfw : field_size window_width = window_width / 4 :=
    Int.tdiv_eq_ediv (by simp only [CELLS_DIM] at hw; omega) (by decide)
  have hfh : field_size window_height = window_height / 4 :=
    Int.tdiv_eq_ediv (by simp only [CELLS_DIM] at hh; omega) (by decide)
  simp only [CELLS_DIM, Nat.cast_ofNat] at hw hh hx hy ⊢
  rw [hfw] at hx ⊢
  rw [hfh] at hy ⊢
  have pw : 0 < window_width / 4 := by omega
  have ph : 0 < window_height / 4 := by omega
  refine ⟨?_, fun hd => by omega, fun hd => by omega⟩
  have qx : 0 ≤ ax / (window_width / 4) ∧ ax / (window_width / 4) < 4 :=
    ⟨Int.ediv_nonneg hx.1 (le_of_lt pw), Int.ediv_lt_of_lt_mul pw hx.2⟩
  have qy : 0 ≤ ay / (window_height / 4) ∧ ay / (window_height / 4) < 4 :=
    ⟨Int.ediv_nonneg hy.1 (le_of_lt ph), Int.ediv_lt_of_lt_mul ph hy.2⟩
  have bx : ax < 18446744073709551616 * (window_width / 4) := by omega
  have by' : ay < 18446744073709551616 * (window_height / 4) := by omega
  refine ⟨_, slide_call_eq _ _ ax ay pos ⟨hx.1, bx⟩ ⟨hy.1, by'⟩ pw ph hd, ?_, ?_, ?_, ?_⟩
  · exact Int.toNat_of_nonneg qx.1
  · exact Int.toNat_of_nonneg qy.1
  · show (ax / (window_width / 4)).toNat < 4
    omega
  · show (ay / (window_height / 4)).toNat < 4
    omega

/-- In an 800 x 800 window the anchor `(450, 210)` is mapped to the cell
`(2, 1)`. -/
theorem anchor_cell_in_range_witness :
    ((((CELLS_DIM : Nat) : Int) ≤ 800) ∧
      ((0 : Int) ≤ 450 ∧ (450 : Int) < (CELLS_DIM : Nat) * field_size 800) ∧
      ((0 : Int) ≤ 210 ∧ (210 : Int) < (CELLS_DIM : Nat) * field_size 800)) ∧
    ((∃ c : SlideCall,
      slide_call (field_size 800) (field_size 800)
        ⟨((450 : Int) : ℚ), ((210 : Int) : ℚ)⟩ ⟨520, 210⟩ = some c ∧
      (c.x : Int) = 450 / field_size 800 ∧
      (c.y : Int) = 210 / field_size 800 ∧
      c.x < CELLS_DIM ∧ c.y < CELLS_DIM) ∧
    ((((CELLS_DIM : Nat) : Int) ∣ 800 → (CELLS_DIM : Nat) * field_size 800 = 800) ∧
     (((CELLS_DIM : Nat) : Int) ∣ 800 → (CELLS_DIM : Nat) * field_size 800 = 800))) ∧
    (450 : Int) / field_size 800 = 2 ∧ (210 : Int) / field_size 800 = 1 :=
  ⟨⟨by decide, by decide, by decide⟩,
   anchor_cell_in_range 800 800 450 210 ⟨520, 210⟩ (by decide) (by decide) (by decide)
     (by decide) (by norm_num),
   by decide, by decide⟩

/-! ## The accesses of `board_randomize` -/

theorem Access.log_bind {α β : Type} (m : Access α) (f : α → Access β) :
    (m >>= f).log = m.log ++ (match m.val with
      | some a => (f a).log
      | none => []) := by
  show (Access.bind m f).log = _
  unfold Access.bind
  cases m.val <;> simp

theorem Access.log_bind_some {α β : Type} (m : Access α) (f : α → Access β) (a : α)
    (h : m.val = some a) : (m >>= f).log = m.log ++ (f a).log := by
  rw [Access.log_bind, h]

/-- The exchange of two cells inside the board uses each of them twice. -/
theorem swap_cells_log (b : Board) (y x j i : Int) (k1 k2 : Nat)
    (h1 : cells_index y x = some k1) (h2 : cells_index j i = some k2) :
    (swap_cells b y x j i).log = [(y, x), (j, i), (y, x), (j, i)] := by
  have l1 : k1 < b.cells.length := by rw [b.size_eq]; exact cells_index_lt h1
  have l2 : k2 < b.cells.length := by rw [b.size_eq]; exact cells_index_lt h2
  have hg1 : (rd b y x).val = some b.cells[k1] := by
    simp [cells_get, h1, List.getElem?_eq_getElem, l1]
  have hg2 : (rd b j i).val = some b.cells[k2] := by
    simp [cells_get, h2, List.getElem?_eq_getElem, l2]
  have hs : (wr b y x b.cells[k2]).val =
      some ⟨b.cells.set k1 b.cells[k2], by rw [List.length_set]; exact b.size_eq⟩ := by
    simp [cells_set, h1]
  unfold swap_cells
  rw [Access.log_bind_some _ _ _ hg1, Access.log_bind_some _ _ _ hg2,
    Access.log_bind_some _ _ _ hs]
  rfl

/-- One iteration of the shuffle: it returns, it has made two more draws, and
it has used the loop cell and the partner, twice each. -/
theorem shuffle_body_trace (draws : Nat → Nat) (y x : Nat) (hy : y < 4) (hx : x < 4)
    (st : Board × Nat) :
    ∃ b', (shuffle_body draws y x st).val = some (b', st.2 + 2) ∧
      (shuffle_body draws y x st).log =
        ShuffleSwap.accesses ⟨y, x, draws (st.2 + 1) % (y + 1), draws st.2 % (x + 1)⟩ := by
  have hi : draws st.2 % (x + 1) < x + 1 := Nat.mod_lt _ (Nat.succ_pos x)
  have hj : draws (st.2 + 1) % (y + 1) < y + 1 := Nat.mod_lt _ (Nat.succ_pos y)
  have h1 := cells_index_nat y x (by omega)
  have h2 := cells_index_nat (draws (st.2 + 1) % (y + 1)) (draws st.2 % (x + 1)) (by omega)
  obtain ⟨b', t, v, hv, -⟩ := swap_spec st.1 y x
    (draws (st.2 + 1) % (y + 1) : Nat) (draws st.2 % (x + 1) : Nat) _ _ h1 h2
  refine ⟨b', ?_, ?_⟩
  · simp only [shuffle_body, Access.val_bind, Access.val_pure, hv, Option.some_bind]
  · unfold shuffle_body
    rw [Access.log_bind_some _ _ b' hv, swap_cells_log _ _ _ _ _ _ _ h1 h2]
    rfl

/-- A down-counting loop from 3 runs its body at 3, 2 and 1. -/
theorem for_down_three {σ : Type} (body : Nat → σ → Access σ) (s : σ) :
    for_down body 3 s = body 3 s >>= fun s1 => body 2 s1 >>= fun s2 => body 1 s2 >>= pure :=
  rfl

/-- One pass of the inner shuffle loop (one row `y`): three iterations, at the
columns 3, 2, 1, with six draws. -/
theorem shuffle_row_trace (draws : Nat → Nat) (y : Nat) (hy : y < 4) (st : Board × Nat) :
    ∃ b', (for_down (fun x s => shuffle_body draws y x s) 3 st).val = some (b', st.2 + 6) ∧
      (for_down (fun x s => shuffle_body draws y x s) 3 st).log =
        ShuffleSwap.accesses ⟨y, 3, draws (st.2 + 1) % (y + 1), draws st.2 % (3 + 1)⟩ ++
        (ShuffleSwap.accesses ⟨y, 2, draws (st.2 + 3) % (y + 1), draws (st.2 + 2) % (2 + 1)⟩ ++
        ShuffleSwap.accesses ⟨y, 1, draws (st.2 + 5) % (y + 1), draws (st.2 + 4) % (1 + 1)⟩) := by
  obtain ⟨b1, v1, l1⟩ := shuffle_body_trace draws y 3 hy (by decide) st
  obtain ⟨b2, v2, l2⟩ := shuffle_body_trace draws y 2 hy (by decide) (b1, st.2 + 2)
  obtain ⟨b3, v3, l3⟩ := shuffle_body_trace draws y 1 hy (by decide) (b2, st.2 + 2 + 2)
  simp only [Nat.add_assoc, Nat.reduceAdd] at v2 l2 v3 l3
  refine ⟨b3, ?_, ?_⟩
  · rw [for_down_three]
    simp only [Access.val_bind, v1, v2, v3, Option.some_bind, Access.val_pure]
  · rw [for_down_three, Access.log_bind_some _ _ _ v1, Access.log_bind_some _ _ _ v2,
      Access.log_bind_some _ _ _ v3, l1, l2, l3, Access.log_pure, List.append_nil]

/-- The shuffle loops: nine iterations with eighteen draws, in the order and
with the partners given by `shuffle_swaps`. -/
theorem board_shuffle_trace (draws : Nat → Nat) (b : Board) :
    ∃ b', (board_shuffle draws (b, 0)).val = some (b', 18) ∧
      (board_shuffle draws (b, 0)).log = (shuffle_swaps draws).flatMap ShuffleSwap.accesses := by
  obtain ⟨b1, v1, l1⟩ := shuffle_row_trace draws 3 (by decide) (b, 0)
  obtain ⟨b2, v2, l2⟩ := shuffle_row_trace draws 2 (by decide) (b1, 6)
  obtain ⟨b3, v3, l3⟩ := shuffle_row_trace draws 1 (by decide) (b2, 12)
  refine ⟨b3, ?_, ?_⟩
  · show (for_down (fun y s => for_down (fun x s => shuffle_body draws y x s) 3 s) 3 (b, 0)).val
      = _
    rw [for_down_three]
    simp only [Access.val_bind, Access.val_pure]
    rw [v1, Option.some_bind, v2, Option.some_bind, v3]
    rfl
  · show (for_down (fun y s => for_down (fun x s => shuffle_body draws y x s) 3 s) 3 (b, 0)).log
      = _
    rw [for_down_three, Access.log_bind_some _ _ _ v1, Access.log_bind_some _ _ _ v2,
      Access.log_bind_some _ _ _ v3, l1, l2, l3, Access.log_pure, List.append_nil]
    rfl

/-- The fill loops write the sixteen cells row by row. -/
theorem board_fill_log (b : Board) : (board_fill b).log = fill_accesses := by
  obtain ⟨a0, a1, a2, a3, a4, a5, a6, a7, a8, a9, a10, a11, a12, a13, a14, a15, h⟩ := b.cells_eq
  obtain ⟨l, hl⟩ := b
  simp only at h
  subst h
  rfl

theorem shuffle_swaps_bounds (draws : Nat → Nat) :
    ∀ s ∈ shuffle_swaps draws,
      (0 < s.x ∧ s.x < CELLS_DIM ∧ 0 < s.y ∧ s.y < CELLS_DIM) ∧ s.i ≤ s.x ∧ s.j ≤ s.y := by
  intro s hs
  unfold shuffle_swaps at hs
  obtain ⟨n, hn, rfl⟩ := List.mem_map.mp hs
  have hn9 : n < 9 := List.mem_range.mp hn
  simp only [CELLS_DIM] at *
  refine ⟨⟨by omega, by omega, by omega, by omega⟩, ?_, ?_⟩
  · exact Nat.le_of_lt_succ (Nat.mod_lt _ (Nat.succ_pos _))
  · exact Nat.le_of_lt_succ (Nat.mod_lt _ (Nat.succ_pos _))

/-- C16: for every sequence of draws (and whatever the board held before)
`board_randomize` returns; its accesses to `board->cells` are the sixteen
writes of the fill loops, then exactly `(N-1) * (N-1) = 9` exchanges, then the
write of the sentinel; in every exchange the loop cell `(x, y)` has
`0 < x < N` and `0 < y < N` and the partner `(i, j)`, computed with the
moduli `x + 1` and `y + 1` (never zero), has `i <= x` and `j <= y`; the
sentinel is written at indices computed modulo `N`, both below `N`. -/
theorem board_randomize_in_bounds (draws : Nat → Nat) (b0 : Board) :
    (∃ b, board_randomize draws b0 = some b) ∧
    (board_randomize_trace draws b0).log =
      fill_accesses ++ (shuffle_swaps draws).flatMap ShuffleSwap.accesses ++
        [(((draws 18 % CELLS_DIM : Nat) : Int), ((draws 19 % CELLS_DIM : Nat) : Int))] ∧
    (shuffle_swaps draws).length = (CELLS_DIM - 1) * (CELLS_DIM - 1) ∧
    (shuffle_swaps draws).length = 9 ∧
    (∀ s ∈ shuffle_swaps draws,
      (0 < s.x ∧ s.x < CELLS_DIM ∧ 0 < s.y ∧ s.y < CELLS_DIM) ∧ s.i ≤ s.x ∧ s.j ≤ s.y) ∧
    (∀ (n : Nat) (s : ShuffleSwap), (shuffle_swaps draws)[n]? = some s →
      0 < s.x + 1 ∧ 0 < s.y + 1 ∧
      s.i = draws (2 * n) % (s.x + 1) ∧ s.j = draws (2 * n + 1) % (s.y + 1)) ∧
    (0 < CELLS_DIM ∧ draws 18 % CELLS_DIM < CELLS_DIM ∧ draws 19 % CELLS_DIM < CELLS_DIM) ∧
    (∀ a ∈ fill_accesses, (0 ≤ a.1 ∧ a.1 < CELLS_DIM) ∧ 0 ≤ a.2 ∧ a.2 < CELLS_DIM) := by
  obtain ⟨b1, v1, l1⟩ := board_shuffle_trace draws solved_full
  have hx : draws 18 % CELLS_DIM < 4 := Nat.mod_lt _ (by decide)
  have hy : draws 19 % CELLS_DIM < 4 := Nat.mod_lt _ (by decide)
  obtain ⟨b2, v2, -⟩ := cells_set_nat b1 (draws 18 % CELLS_DIM) (draws 19 % CELLS_DIM)
    POINT_EMPTY (by omega)
  refine ⟨⟨b2, ?_⟩, ?_, by simp [shuffle_swaps], by simp [shuffle_swaps],
    shuffle_swaps_bounds draws, ?_, ⟨by decide, hx, hy⟩, by decide⟩
  · simp only [board_randomize, board_randomize_trace, Access.val_bind, board_fill_val,
      Option.some_bind, v1, wr_val, v2]
  · unfold board_randomize_trace
    rw [Access.log_bind_some _ _ _ (board_fill_val b0), Access.log_bind_some _ _ _ v1,
      board_fill_log, l1, List.append_assoc]
    rfl
  · intro n s hs
    unfold shuffle_swaps at hs
    rw [List.getElem?_map] at hs
    cases hr : (List.range ((CELLS_DIM - 1) * (CELLS_DIM - 1)))[n]? with
    | none => rw [hr] at hs; simp at hs
    | some k =>
      rw [hr] at hs
      have hk : k = n := by
        rw [List.getElem?_range] at hr
        · exact (Option.some.inj hr).symm
        · exact (List.getElem?_eq_some.mp hr).1 |> fun h => by simpa using h
      subst hk
      simp only [Option.map_some', Option.some.injEq] at hs
      subst hs
      exact ⟨Nat.succ_pos _, Nat.succ_pos _, rfl, rfl⟩

/-! ## Solvability -/

theorem solved_tile_empty_iff : ∀ j : Fin 16, solved_tile j = POINT_EMPTY ↔ j = 0 := by
  decide

theorem solved_tile_injective : ∀ j k : Fin 16, solved_tile j = solved_tile k → j = k := by
  decide

theorem solved_tile_of_pos :
    ∀ j k : Fin 16, solved_tile j = ⟨k.val % CELLS_DIM, k.val / CELLS_DIM⟩ → k ≠ 0 → j = k := by
  decide

theorem solved_tile_ne_origin : ∀ j : Fin 16, solved_tile j ≠ ⟨0, 0⟩ := by
  decide

/-- Adjacent grid positions have opposite colours. -/
theorem position_sign_neighbour :
    ∀ x : Fin 4, ∀ y : Fin 4, ∀ dir : Direction, ∀ nx : Fin 4, ∀ ny : Fin 4,
      neighbour x.val y.val dir = some (nx.val, ny.val) →
      position_sign ⟨y.val * 4 + x.val, by omega⟩ =
        - position_sign ⟨ny.val * 4 + nx.val, by omega⟩ := by
  intro x y dir
  cases dir <;> revert x y <;> decide

theorem legal_slide_iff (b : Board) (x y : Nat) (dir : Direction)
    (hl : legal_slide b x y dir = true) :
    x < 4 ∧ y < 4 ∧ ∃ nx ny, neighbour x y dir = some (nx, ny) ∧
      b.cell nx ny = some POINT_EMPTY := by
  unfold legal_slide at hl
  simp only [Bool.and_eq_true, decide_eq_true_eq, CELLS_DIM] at hl
  obtain ⟨⟨hx, hy⟩, hm⟩ := hl
  refine ⟨hx, hy, ?_⟩
  cases hn : neighbour x y dir with
  | none => rw [hn] at hm; exact absurd hm Bool.false_ne_true
  | some q =>
    obtain ⟨nx, ny⟩ := q
    rw [hn] at hm
    exact ⟨nx, ny, rfl, of_decide_eq_true hm⟩

/-- A legal slide keeps a board out of reach of the solved board: it
exchanges two cells, which changes the sign of the arrangement, and moves the
sentinel to an adjacent position, which changes its colour. -/
theorem odd_arrangement_step (b b' : Board) (x y : Nat) (dir : Direction)
    (hl : legal_slide b x y dir = true) (hs : board_slide_piece b x y dir = some b')
    (hb : b.odd_arrangement) : b'.odd_arrangement := by
  obtain ⟨hx, hy, nx, ny, hn, he⟩ := legal_slide_iff b x y dir hl
  obtain ⟨hnx, hny, -⟩ := slide_trace_neighbour b x y nx ny dir hx hy hn
  obtain ⟨b1, t, hv, ht, hc⟩ := slide_legal b x y nx ny dir hx hy hn he
  rw [hv] at hs
  obtain rfl : b1 = b' := Option.some.inj hs
  rw [b.cell_in nx ny hnx hny] at he
  obtain ⟨σ, K, hrep, hK, hsign⟩ := hb
  have hcol := position_sign_neighbour ⟨x, hx⟩ ⟨y, hy⟩ dir ⟨nx, hnx⟩ ⟨ny, hny⟩ hn
  have hne := neighbour_ne x y nx ny dir hn
  have hkne : ny * 4 + nx ≠ y * 4 + x := by
    intro e
    apply hne
    simp only [Prod.mk.injEq]
    omega
  have hk1 : y * 4 + x < b.cells.length := by rw [b.size_eq]; simp only [CELLS_DIM]; omega
  have hk2 : ny * 4 + nx < b.cells.length := by rw [b.size_eq]; simp only [CELLS_DIM]; omega
  generalize hK1 : (⟨y * 4 + x, by omega⟩ : Fin 16) = K1 at hcol
  generalize hK2 : (⟨ny * 4 + nx, by omega⟩ : Fin 16) = K2 at hcol
  have v1 : K1.val = y * 4 + x := by rw [← hK1]
  have v2 : K2.val = ny * 4 + nx := by rw [← hK2]
  have hK12 : K1 ≠ K2 := by
    intro e
    apply hkne
    rw [← v1, ← v2, e]
  have hσ2 : σ K2 = 0 := by
    have h1 := hrep K2
    rw [v2, he] at h1
    exact (solved_tile_empty_iff _).mp (Option.some.inj h1).symm
  have hKK : K = K2 := σ.injective (hK.trans hσ2.symm)
  subst hKK
  have hσ1 : solved_tile (σ K1) = t := by
    have h1 := hrep K1
    rw [v1, ht] at h1
    exact (Option.some.inj h1).symm
  refine ⟨σ * Equiv.swap K1 K, K1, ?_, ?_, ?_⟩
  · intro k
    rw [Equiv.Perm.mul_apply, hc]
    by_cases e2 : k = K
    · subst e2
      rw [Equiv.swap_apply_right, v2, List.getElem?_set_self (by simpa using hk2), hσ1]
    · have n2 : ny * 4 + nx ≠ k.val := fun e => e2 (Fin.ext (by rw [v2]; exact e.symm))
      rw [List.getElem?_set_ne n2]
      by_cases e1 : k = K1
      · subst e1
        rw [Equiv.swap_apply_left, v1, List.getElem?_set_self hk1, hσ2]
        rfl
      · have n1 : y * 4 + x ≠ k.val := fun e => e1 (Fin.ext (by rw [v1]; exact e.symm))
        rw [List.getElem?_set_ne n1, Equiv.swap_apply_of_ne_of_ne e1 e2]
        exact hrep k
  · rw [Equiv.Perm.mul_apply, Equiv.swap_apply_left]
    exact hσ2
  · rw [Equiv.Perm.sign_mul, Equiv.Perm.sign_swap hK12, Units.val_mul, hsign, hcol]
    simp

theorem odd_arrangement_sequence (moves : List (Nat × Nat × Direction)) :
    ∀ b t : Board, b.odd_arrangement → slide_sequence b moves = some t → t.odd_arrangement := by
  induction moves with
  | nil =>
    intro b t hb h
    obtain rfl : b = t := Option.some.inj h
    exact hb
  | cons m rest ih =>
    intro b t hb h
    obtain ⟨x, y, dir⟩ := m
    unfold slide_sequence at h
    by_cases hl : legal_slide b x y dir = true
    · rw [if_pos hl] at h
      cases hs : board_slide_piece b x y dir with
      | none => rw [hs] at h; exact absurd h (by simp)
      | some b1 =>
        rw [hs, Option.some_bind] at h
        exact ih b1 t (odd_arrangement_step b b1 x y dir hl hs hb) h
    · rw [if_neg hl] at h
      exact absurd h (by simp)

/-- A solved arrangement is not out of reach of itself. -/
theorem not_solved_of_odd (t : Board) (ho : t.odd_arrangement) : ¬ t.is_solved := by
  intro hsol
  obtain ⟨σ, K, hrep, hK, hsign⟩ := ho
  have hcell : ∀ k : Fin 16,
      solved_tile (σ k) = POINT_EMPTY ∨
        solved_tile (σ k) = ⟨k.val % CELLS_DIM, k.val / CELLS_DIM⟩ := by
    intro k
    have hx : k.val % CELLS_DIM < CELLS_DIM := Nat.mod_lt _ (by decide)
    have hy : k.val / CELLS_DIM < CELLS_DIM := by
      have := k.isLt
      simp only [CELLS_DIM]
      omega
    have h1 := hsol _ hx _ hy
    have h2 : t.cell (k.val % CELLS_DIM) (k.val / CELLS_DIM) = some (solved_tile (σ k)) := by
      rw [t.cell_in _ _ hx hy, ← hrep k]
      congr 1
      simp only [CELLS_DIM]
      omega
    rw [h2] at h1
    rcases h1 with h1 | h1
    · exact Or.inl (Option.some.inj h1)
    · exact Or.inr (Option.some.inj h1)
  have h0 : σ 0 = 0 := by
    rcases hcell 0 with h | h
    · exact (solved_tile_empty_iff _).mp h
    · exact absurd h (solved_tile_ne_origin _)
  have hid : ∀ k : Fin 16, σ k = k := by
    intro k
    by_cases hk : k = 0
    · rw [hk]; exact h0
    · rcases hcell k with h | h
      · have : σ k = 0 := (solved_tile_empty_iff _).mp h
        exact absurd (σ.injective (this.trans h0.symm)) hk
      · exact solved_tile_of_pos _ _ h hk
  have hσ : σ = 1 := Equiv.ext hid
  subst hσ
  have hK0 : K = 0 := hK
  subst hK0
  rw [Equiv.Perm.sign_one] at hsign
  revert hsign
  decide

theorem unsolvable_board_odd : unsolvable_board.odd_arrangement := by
  refine ⟨Equiv.swap 14 15, 0, by decide, by decide, ?_⟩
  rw [Equiv.Perm.sign_swap (by decide)]
  decide

theorem board_randomize_sample (b0 : Board) :
    board_randomize sample_draws b0 = some unsolvable_board := by
  simp only [board_randomize, board_randomize_trace, Access.val_bind, board_fill_val,
    Option.some_bind]
  decide

/-- Legal slide sequences exist and can end in the solved arrangement: from
the board `unsolvable_board` two slides are legal in a row, and from
`solved_board_after` one legal slide gives the solved board. -/
theorem slide_sequence_examples :
    (slide_sequence unsolvable_board [(1, 0, DIR_LEFT), (1, 1, DIR_UP)]).isSome = true ∧
    slide_sequence solved_board_after [(0, 0, DIR_RIGHT)] = some solved_board ∧
    solved_board.is_solved ∧ ¬ unsolvable_board.is_solved ∧
    slide_sequence solved_board [(2, 0, DIR_LEFT)] = none := by
  decide

/-- C13: the shuffle does not guarantee solvability.  For the draws
`sample_draws` (the first shuffle step exchanges the cells `(3, 3)` and `(2, 3)`,
every other step exchanges a cell with itself, and the sentinel is written to
`(0, 0)`) `board_randomize` returns the board `unsolvable_board`, and no finite
sequence of legal slides (the neighbour inside the grid and holding the
sentinel) leads from it to a board in which every non-empty cell `(x, y)` holds
`Point{x, y}`. -/
theorem shuffle_not_always_solvable (b0 : Board) :
    ∃ (draws : Nat → Nat) (b : Board),
      board_randomize draws b0 = some b ∧ b = unsolvable_board ∧
      ∀ (moves : List (Nat × Nat × Direction)) (t : Board),
        slide_sequence b moves = some t → ¬ t.is_solved :=
  ⟨sample_draws, unsolvable_board, board_randomize_sample b0, rfl,
    fun moves t h =>
      not_solved_of_odd t (odd_arrangement_sequence moves _ t unsolvable_board_odd h)⟩

end Nuzzle
